import Mathlib

/-! Shallow embedding of the TravelPlanner orchestration and consensus engine
    (backend/app/agents/orchestrator_agent.py, backend/app/agents/consensus_agent.py,
    backend/app/router/trip.py), together with theorems checking the
    natural-language specification against it. -/

namespace TravelPlanner

/-- Association-list lookup, modelling a Python `dict` read (`d.get(k)`). -/
def alookup {α β : Type} [DecidableEq α] (l : List (α × β)) (k : α) : Option β :=
  match l with
  | [] => none
  | kv :: rest => if kv.1 = k then some kv.2 else alookup rest k

/-- Update the value stored under a key, leaving other keys alone
    (models in-place mutation of one entry of a Python dict). -/
def aupdate {α β : Type} [DecidableEq α] (l : List (α × β)) (k : α) (f : β → β) :
    List (α × β) :=
  l.map (fun kv => if kv.1 = k then (kv.1, f kv.2) else kv)

/-- A voting option inside a consensus phase (the `VoteOption` records built by
    `consensus_agent.py` and mutated by `trip.py::submit_vote`). -/
structure VoteOption where
  value : String
  label : String
  votes : Nat
  voters : List String
deriving DecidableEq, Repr

/-- Per-phase record stored under `phase_tracking.phases[name]`.  Timestamps are
    modelled as booleans recording whether the field has been set. -/
structure PhaseData where
  status : String := ""
  options : List VoteOption := []
  users_ready : List String := []
  date_options : List (Int × Int) := []
  destination_options : List String := []
  started_at : Bool := false
  completed_at : Bool := false
deriving DecidableEq, Repr

/-- The empty Python dict that `phases.get(name, {})` defaults to:
    every string field reads as `""`, every list as empty. -/
def PhaseData.empty : PhaseData := {}

/-- `phase_tracking`: the current phase (None modelled as `none`) and the map
    of phase name to phase data. -/
structure PhaseTracking where
  current_phase : Option String
  phases : List (String × PhaseData)
deriving DecidableEq, Repr

/-- Empty `phase_tracking` dict (the `or {}` default). -/
def PhaseTracking.empty : PhaseTracking := ⟨none, []⟩

/-- The `agent_data` bag fields the Supervisor inspects.  Presence-only keys
    (`preferences_summary`, `activity_catalog`, `itinerary`) are modelled by a
    boolean recording `is not None`; `phase_tracking` conflates an absent key
    with a stored `None` (the source's `_needs_destination_research` would
    raise on a stored `None`, so the model covers absent-or-dict states). -/
structure AgentData where
  preferences_summary : Bool := false
  destination : Option String := none
  activity_catalog : Bool := false
  itinerary : Bool := false
  trip_duration_days : Option Nat := none
  phase_tracking : Option PhaseTracking := none
deriving DecidableEq, Repr

/-- The slice of the LangGraph `AgentState` that routing reads. -/
structure AgentState where
  trip_id : String := ""
  steps : Nat := 0
  agent_data : AgentData := {}
  trip_duration_days : Option Nat := none
deriving DecidableEq, Repr

/-- Python truthiness of an optional string (`bool(x)`). -/
def truthyStr (o : Option String) : Bool :=
  match o with
  | none => false
  | some s => s != ""

/-- Python truthiness of an optional integer (`bool(x)`: `0` and `None` are falsy). -/
def truthyNat (o : Option Nat) : Bool :=
  match o with
  | none => false
  | some n => n != 0

/-- Python `a or b` on optional integers (falsy left operand falls through). -/
def pyOrNat (a b : Option Nat) : Option Nat :=
  match a with
  | none => b
  | some n => if n = 0 then b else some n

/-- Python truthiness normalisation for `current_phase` (None or `""` is falsy). -/
def truthyPhase (o : Option String) : Option String :=
  match o with
  | none => none
  | some s => if s = "" then none else some s

/-- `orchestrator_agent.py::_needs_preference_processing`. -/
def needs_preference_processing (s : AgentState) : Bool :=
  s.trip_id != "" && !s.agent_data.preferences_summary

/-- `orchestrator_agent.py::_needs_consensus`. -/
def needs_consensus (s : AgentState) : Bool :=
  match s.agent_data.phase_tracking with
  | none => false
  | some pt =>
    match truthyPhase pt.current_phase with
    | none => false
    | some cp =>
      match alookup pt.phases cp with
      | none => false
      | some pd =>
        if (cp = "activity_voting" ∨ cp = "itinerary_approval") ∧
            (pd.status = "active" ∨ pd.status = "voting_in_progress" ∨
              pd.status = "pending") then
          false
        else
          pd.status == "active"

/-- `orchestrator_agent.py::_needs_destination_research`. -/
def needs_destination_research (s : AgentState) : Bool :=
  let ad := s.agent_data
  let has_preferences := ad.preferences_summary
  let has_catalog := ad.activity_catalog
  let has_destination := truthyStr ad.destination
  let pt := ad.phase_tracking.getD PhaseTracking.empty
  let blocked :=
    match truthyPhase pt.current_phase with
    | some cp =>
      if cp = "destination_decision" then
        let dest_status := ((alookup pt.phases "destination_decision").getD PhaseData.empty).status
        dest_status == "active" || dest_status == "voting_in_progress"
      else false
    | none => false
  if blocked then false
  else has_preferences && has_destination && !has_catalog

/-- `orchestrator_agent.py::_needs_itinerary_generation`. -/
def needs_itinerary_generation (s : AgentState) : Bool :=
  let ad := s.agent_data
  let has_catalog := ad.activity_catalog
  let has_itinerary := ad.itinerary
  let duration := pyOrNat ad.trip_duration_days s.trip_duration_days
  match ad.phase_tracking with
  | none => false
  | some pt =>
    let status :=
      match alookup pt.phases "activity_voting" with
      | some pd => pd.status
      | none => "pending"
    if status = "active" then false
    else if status = "pending" then false
    else
      has_catalog && truthyNat duration && !has_itinerary && (status == "completed")

/-- `orchestrator_agent.py::_is_waiting_for_user_action` (returns the pause flag
    and the reason string). -/
def is_waiting_for_user_action (s : AgentState) : Bool × String :=
  let pt := s.agent_data.phase_tracking.getD PhaseTracking.empty
  let phases := pt.phases
  match truthyPhase pt.current_phase with
  | some cp =>
    let status := ((alookup phases cp).getD PhaseData.empty).status
    if status = "voting_in_progress" ∨ status = "pending" ∨ status = "active" then
      if cp = "destination_decision" ∧ status = "voting_in_progress" then
        (true, "Waiting for destination votes")
      else if cp = "date_selection" ∧ status = "voting_in_progress" then
        (true, "Waiting for date votes")
      else if cp = "activity_voting" ∧
          (status = "pending" ∨ status = "active" ∨ status = "voting_in_progress") then
        (true, "Waiting for activity votes")
      else if cp = "itinerary_approval" ∧
          (status = "pending" ∨ status = "active" ∨ status = "voting_in_progress") then
        (true, "Waiting for itinerary approvals")
      else (false, "")
    else (false, "")
  | none =>
    match alookup phases "activity_voting" with
    | some pd =>
      if pd.status = "pending" ∨ pd.status = "active" ∨ pd.status = "voting_in_progress" then
        (true, "Waiting for activity voting to start/complete")
      else (false, "")
    | none => (false, "")

/-- The static worker registry keys (`orchestrator_agent.py::WORKERS`). -/
def workerKeys : List String :=
  ["preference_processor", "consensus_resolver", "destination_researcher", "itinerary_planner"]

/-- The deterministic routing suggestion: the first matching predicate, in the
    fixed priority order of `supervisor_agent`. -/
def deterministic_suggestion (s : AgentState) : Option String :=
  if needs_preference_processing s then some "preference_processor"
  else if needs_consensus s then some "consensus_resolver"
  else if needs_destination_research s then some "destination_researcher"
  else if needs_itinerary_generation s then some "itinerary_planner"
  else none

/-- The Supervisor's routing decision for one step.  `usedLLM` records whether
    the assistive routing call was consulted. -/
structure Decision where
  next_task : String
  reason : String
  steps : Nat
  done : Bool
  usedLLM : Bool
deriving DecidableEq, Repr

/-- The step cap (`MAX_STEPS` in `supervisor_agent`). -/
def MAX_STEPS : Nat := 20

/-- `orchestrator_agent.py::supervisor_agent`.  The assistive routing call is
    modelled by an oracle `llm : Option (AgentState → String)` producing the
    (already stripped) proposed key; `none` models an unconfigured model. -/
def supervisor_agent (llm : Option (AgentState → String)) (s : AgentState) : Decision :=
  let steps := s.steps + 1
  if MAX_STEPS ≤ steps then
    { next_task := "end", reason := "Reached maximum steps (20)",
      steps := steps, done := true, usedLLM := false }
  else
    let sug := deterministic_suggestion s
    let waiting := is_waiting_for_user_action s
    if sug = none ∧ waiting.1 = true then
      { next_task := "end", reason := waiting.2, steps := steps,
        done := false, usedLLM := false }
    else
      match sug, llm with
      | some k, _ =>
        { next_task := k, reason := "Deterministic routing: " ++ k,
          steps := steps, done := k == "end", usedLLM := false }
      | none, none =>
        { next_task := "end", reason := "No more work needed; ending workflow",
          steps := steps, done := true, usedLLM := false }
      | none, some f =>
        let proposed := f s
        let next := if proposed ∈ workerKeys ∨ proposed = "end" then proposed else "end"
        { next_task := next,
          reason := if next = proposed then "LLM routing: " ++ proposed
            else "LLM proposed " ++ proposed ++ "; coerced to " ++ next ++ ".",
          steps := steps, done := next == "end", usedLLM := true }

/-- One run of the Supervisor loop: between Supervisor decisions an arbitrary
    worker (the adversarial environment `env`) may rewrite the `agent_data`
    bag; only the Supervisor moves the step counter, which mirrors the merge
    semantics of the graph (workers return partial updates without `steps`). -/
def runState (llm : Option (AgentState → String)) (env : Nat → AgentData → AgentData)
    (s0 : AgentState) : Nat → AgentState
  | 0 => s0
  | n + 1 =>
    let s := runState llm env s0 n
    let d := supervisor_agent llm s
    { s with steps := d.steps, agent_data := env n s.agent_data }

/-- Increment a tally entry (`counter[k] = counter.get(k, 0) + 1`). -/
def aincr {α : Type} [DecidableEq α] (l : List (α × Nat)) (k : α) : List (α × Nat) :=
  match alookup l k with
  | some _ => aupdate l k (fun n => n + 1)
  | none => l ++ [(k, 1)]

/-- `collections.Counter` over a list, in first-occurrence order. -/
def tally {α : Type} [DecidableEq α] (l : List α) : List (α × Nat) :=
  l.foldl aincr []

/-- Insert into a descending-sorted list, after every entry that compares
    greater-or-equal: the stable insertion behind the model of Python's
    stable `sorted(..., reverse=True)`. -/
def insDesc {α : Type} (le : α → α → Bool) (a : α) : List α → List α
  | [] => [a]
  | b :: bs => if le a b then b :: insDesc le a bs else a :: b :: bs

/-- Stable descending sort (models `list.sort(key=..., reverse=True)` and the
    ordering of `Counter.most_common`). -/
def sortDesc {α : Type} (le : α → α → Bool) (l : List α) : List α :=
  l.foldl (fun acc a => insDesc le a acc) []

/-- Comparison by tally count. -/
def countLe {α : Type} (a b : α × Nat) : Bool := decide (a.2 ≤ b.2)

/-- Python `str.title()`: uppercase every cased character that follows a
    non-cased one, lowercase the rest. -/
def titleAux : Bool → List Char → List Char
  | _, [] => []
  | prevAlpha, c :: cs =>
    let c2 := if c.isAlpha then (if prevAlpha then c.toLower else c.toUpper) else c
    c2 :: titleAux c.isAlpha cs

/-- Python `str.title()` on a string. -/
def strTitle (s : String) : String := ⟨titleAux false s.data⟩

/-- Python `str.lower()`, over the characters. -/
def pyLower (s : String) : String := ⟨s.data.map Char.toLower⟩

/-- Python `str.strip()`: drop leading and trailing whitespace. -/
def pyStrip (s : String) : String :=
  ⟨((s.data.dropWhile Char.isWhitespace).reverse.dropWhile Char.isWhitespace).reverse⟩

/-- The normalised destination mentions: `dest.strip().lower()` for every
    preference whose destination is truthy (`_decide_destination`). -/
def destMentions (prefs : List (Option String)) : List String :=
  prefs.filterMap (fun p =>
    match p with
    | some d => if d = "" then none else some (pyLower (pyStrip d))
    | none => none)

/-- `Counter(mentions).most_common()`: tallies sorted by count, descending,
    stable in first-occurrence order. -/
def most_common (l : List String) : List (String × Nat) :=
  sortDesc countLe (tally l)

/-- The tie test of `_decide_destination`:
    `len(most_common) > 1 and most_common[0][1] == most_common[1][1]`. -/
def tieDetected (mc : List (String × Nat)) : Bool :=
  match mc with
  | a :: b :: _ => decide (b.2 = a.2)
  | _ => false

/-- The values tied for first place
    (`[d for d, count in most_common if count == most_common[0][1]]`). -/
def tiedValues (mc : List (String × Nat)) : List String :=
  match mc with
  | [] => []
  | a :: _ => (mc.filter (fun kv => kv.2 == a.2)).map (fun kv => kv.1)

/-- `vote_counts = dict of option value to len(voters)`. -/
def voteCounts (options : List VoteOption) : List (String × Nat) :=
  options.map (fun o => (o.value, o.voters.length))

/-- The set of members that voted on any option (a Python `set`, so counted
    without duplicates). -/
def allVoters (options : List VoteOption) : List String :=
  (options.foldl (fun acc o => acc ++ o.voters) []).dedup

/-- `max(vote_counts.values())` (on the nonempty lists the code reaches). -/
def maxVotes (vc : List (String × Nat)) : Nat :=
  vc.foldl (fun m kv => max m kv.2) 0

/-- The option values holding the most votes. -/
def voteWinners (vc : List (String × Nat)) : List String :=
  (vc.filter (fun kv => kv.2 == maxVotes vc)).map (fun kv => kv.1)

/-- `random.choice(l)` modelled by an external oracle index. -/
def pickFrom (l : List String) (pick : Nat) : String :=
  l.getD (pick % l.length) ""

/-- Input of `ConsensusAgent._decide_destination`: the destination field of
    every stored preference, the phase map, the trip member list, and the
    oracle index consumed by `random.choice`. -/
structure DestInput where
  prefs : List (Option String)
  phases : List (String × PhaseData)
  members : List String
  pick : Nat
deriving DecidableEq, Repr

/-- What one `_decide_destination` call decides. -/
inductive DestResult
  | noPreferences
  | noDestinations
  | votingSetup (options : List VoteOption)
  | waitingForVotes
  | waitingForMembers (voted total : Nat)
  | resolved (dest : String) (next_phase : Option String)
deriving DecidableEq, Repr

/-- A `_decide_destination` call together with the phase state it persists. -/
structure DestOutcome where
  result : DestResult
  phasesAfter : List (String × PhaseData)
  currentPhaseAfter : Option String
deriving DecidableEq, Repr

/-- The completion step of `_decide_destination`: mark the phase completed
    (setting `completed_at`), then advance to `date_selection` only when that
    phase is pending with date options; otherwise clear `current_phase`. -/
def resolveDestination (phases : List (String × PhaseData)) (selected_dest : String) :
    DestOutcome :=
  let phases1 := aupdate phases "destination_decision"
    (fun pd => { pd with status := "completed", completed_at := true })
  let date_phase := (alookup phases "date_selection").getD PhaseData.empty
  let needs_date_consensus :=
    date_phase.status = "pending" ∧ 0 < date_phase.date_options.length
  if needs_date_consensus then
    ⟨.resolved selected_dest (some "date_selection"),
      aupdate phases1 "date_selection"
        (fun pd => { pd with status := "active", started_at := true }),
      some "date_selection"⟩
  else
    ⟨.resolved selected_dest none, phases1, none⟩

/-- `ConsensusAgent._decide_destination` as a pure function of its decision
    inputs. -/
def decide_destination (inp : DestInput) : DestOutcome :=
  if inp.prefs.isEmpty then ⟨.noPreferences, inp.phases, some "destination_decision"⟩
  else
    let mentions := destMentions inp.prefs
    if mentions.isEmpty then ⟨.noDestinations, inp.phases, some "destination_decision"⟩
    else
      let mc := most_common mentions
      if tieDetected mc then
        let tied := tiedValues mc
        let phase_data := (alookup inp.phases "destination_decision").getD PhaseData.empty
        if phase_data.options.isEmpty then
          let voting_options := tied.map (fun d =>
            { value := d, label := strTitle d, votes := 0, voters := [] : VoteOption })
          ⟨.votingSetup voting_options,
            aupdate inp.phases "destination_decision"
              (fun pd => { pd with options := voting_options, status := "voting_in_progress" }),
            some "destination_decision"⟩
        else
          let vc := voteCounts phase_data.options
          if (vc.map (fun kv => kv.2)).sum = 0 then
            ⟨.waitingForVotes,
              aupdate inp.phases "destination_decision"
                (fun pd => { pd with status := "voting_in_progress" }),
              some "destination_decision"⟩
          else
            let voters := allVoters phase_data.options
            if voters.length < inp.members.length then
              ⟨.waitingForMembers voters.length inp.members.length, inp.phases,
                some "destination_decision"⟩
            else
              let winners := voteWinners vc
              let selected_dest :=
                if winners.length = 1 then winners.headD ""
                else pickFrom winners inp.pick
              resolveDestination inp.phases selected_dest
      else
        resolveDestination inp.phases (mc.headD ("", 0)).1

/-- An activity document as scored by `_decide_activities`.  The base score is
    a float in the source; floating point is outside the embedding, so it is
    modelled as an exact integer-valued score (the ranking formula is
    unchanged). -/
structure Activity where
  name : String
  category : String := "Other"
  net_score : Int := 0
  score : Int := 0
  downvote_count : Nat := 0
deriving DecidableEq, Repr

/-- The ranking score of `_decide_activities`: `net_score * 10` plus
    `score * 50`, minus `30` when `downvote_count >= 2`. -/
def final_score (a : Activity) : Int :=
  a.net_score * 10 + a.score * 50 - (if 2 ≤ a.downvote_count then 30 else 0)

/-- Comparison of activities by final score. -/
def activityLe (a b : Activity) : Bool := decide (final_score a ≤ final_score b)

/-- `scored_activities.sort(key=lambda x: final_score, reverse=True)`. -/
def sortActivities (l : List Activity) : List Activity := sortDesc activityLe l

/-- The selection loop of `_decide_activities`: walk the ranked list, skip a
    category once it holds 7 picks, require `net_score >= 1`, stop at 35. -/
def selectLoop : List Activity → List Activity → List (String × Nat) → List Activity
  | [], selected, _ => selected.reverse
  | a :: rest, selected, category_counts =>
    if 7 ≤ (alookup category_counts a.category).getD 0 then
      selectLoop rest selected category_counts
    else if a.net_score < 1 then
      selectLoop rest selected category_counts
    else
      let selected2 := a :: selected
      let counts2 := aincr category_counts a.category
      if 35 ≤ selected2.length then selected2.reverse
      else selectLoop rest selected2 counts2

/-- Selection from the ranked catalog. -/
def selectActivities (ranked : List Activity) : List Activity :=
  selectLoop ranked [] []

/-- What one `_decide_activities` call decides. -/
inductive ActResult
  | waiting (ready total : Nat)
  | noActivities
  | selected (acts : List Activity)
deriving DecidableEq, Repr

/-- A `_decide_activities` call together with the phase state it persists. -/
structure ActOutcome where
  result : ActResult
  phasesAfter : List (String × PhaseData)
  currentPhaseAfter : Option String
deriving DecidableEq, Repr

/-- `ConsensusAgent._decide_activities` as a pure function: the readiness
    gate, scoring, selection, and the persisted phase bookkeeping (the phase
    becomes `completed` and `current_phase` is written to `None`). -/
def decide_activities (phases : List (String × PhaseData)) (members : List String)
    (activities : List Activity) : ActOutcome :=
  let phase_data := (alookup phases "activity_voting").getD PhaseData.empty
  let users_ready := phase_data.users_ready
  if users_ready.length < members.length then
    ⟨.waiting users_ready.length members.length, phases, some "activity_voting"⟩
  else if activities.isEmpty then
    ⟨.noActivities, phases, some "activity_voting"⟩
  else
    let selected := selectActivities (sortActivities activities)
    ⟨.selected selected,
      aupdate phases "activity_voting"
        (fun pd => { pd with status := "completed", completed_at := true }),
      none⟩

/-- First pass of `submit_vote`: remove the user from every option's voters
    list, recomputing `votes` from `voters` wherever it changes. -/
def clearUserVotes (user_id : String) (options : List VoteOption) : List VoteOption :=
  options.map (fun o =>
    if user_id ∈ o.voters then
      let voters := o.voters.erase user_id
      { o with voters := voters, votes := voters.length }
    else o)

/-- Second pass of `submit_vote`: append the user to every selected option. -/
def addUserVotes (user_id : String) (selected : List String) (options : List VoteOption) :
    List VoteOption :=
  options.map (fun o =>
    if o.value ∈ selected then
      if user_id ∈ o.voters then o
      else
        let voters := o.voters ++ [user_id]
        { o with voters := voters, votes := voters.length }
    else o)

/-- The option rewrite performed by one accepted `submit_vote` call. -/
def submitVoteOptions (user_id : String) (selected : List String)
    (options : List VoteOption) : List VoteOption :=
  addUserVotes user_id selected (clearUserVotes user_id options)

/-- Result of the `submit_vote` endpoint for an existing trip. -/
inductive VoteOutcome
  | invalidPhase
  | noOptions
  | invalidOption (v : String)
  | accepted (options : List VoteOption) (users_ready : List String)
      (consensusTriggered : Bool)
deriving DecidableEq, Repr

/-- `trip.py::submit_vote` for an existing trip: validation, the two-pass vote
    rewrite, the `users_ready` side effect, and the all-voted trigger check. -/
def submit_vote (phases : List (String × PhaseData)) (members : List String)
    (phase user_id : String) (selected : List String) : VoteOutcome :=
  match alookup phases phase with
  | none => .invalidPhase
  | some phase_data =>
    if phase_data.options.isEmpty then .noOptions
    else
      match selected.find? (fun v => !(phase_data.options.map (fun o => o.value)).contains v) with
      | some v => .invalidOption v
      | none =>
        let options := submitVoteOptions user_id selected phase_data.options
        let users_ready :=
          if user_id ∈ phase_data.users_ready then phase_data.users_ready
          else phase_data.users_ready ++ [user_id]
        let voters := allVoters options
        let trigger := decide (members.length ≤ voters.length) && (phase_data.status != "active")
        .accepted options users_ready trigger

/-- One stored preference document, as read by `trigger_all_in` (date ranges
    are pre-parsed inclusive day-number pairs; ISO parsing is external). -/
structure Pref where
  destination : Option String := none
  available_dates : List (Int × Int) := []
deriving DecidableEq, Repr

/-- The trip document fields `trigger_all_in` reads. -/
structure TripDoc where
  orchestrator_status : Option String := none
  status : Option String := none
  members : List String := []
  members_with_preferences : List String := []
  destination : Option String := none
deriving DecidableEq, Repr

/-- Overlap of two inclusive date ranges when they intersect
    (`start1 <= end2 and start2 <= end1`). -/
def pairOverlap (r1 r2 : Int × Int) : Option (Int × Int) :=
  if r1.1 ≤ r2.2 ∧ r2.1 ≤ r1.2 then some (max r1.1 r2.1, min r1.2 r2.2) else none

/-- All pairwise overlaps over index pairs `i < j`. -/
def overlapsAux : List (Int × Int) → List (Int × Int)
  | [] => []
  | r :: rest => rest.filterMap (pairOverlap r) ++ overlapsAux rest

/-- The Python `set` of pairwise overlap ranges. -/
def overlapping_date_ranges (all_date_ranges : List (Int × Int)) : List (Int × Int) :=
  (overlapsAux all_date_ranges).dedup

/-- All members' submitted availability ranges, pooled. -/
def allInDates (all_prefs : List Pref) : List (Int × Int) :=
  all_prefs.foldl (fun acc p => acc ++ p.available_dates) []

/-- The classification `trigger_all_in` makes of the pooled date ranges
    (the overlap scan runs only when more than one range was pooled). -/
inductive DateOutcome
  | fewRanges
  | noCompatible
  | single (r : Int × Int)
  | conflict (overlaps : List (Int × Int))
deriving DecidableEq, Repr

/-- Date-overlap classification of `trigger_all_in`. -/
def dateOutcome (all_date_ranges : List (Int × Int)) : DateOutcome :=
  if 1 < all_date_ranges.length then
    let overlaps := overlapping_date_ranges all_date_ranges
    if overlaps.length = 0 then .noCompatible
    else if overlaps.length = 1 then .single (overlaps.headD (0, 0))
    else .conflict overlaps
  else .fewRanges

/-- Destination aggregation of `trigger_all_in`: the clear winner, or the
    conflict flag with the values tied for first. -/
structure DestAgg where
  destination : Option String
  has_conflict : Bool
  tied : List String
deriving DecidableEq, Repr

/-- The normalised destination mentions pooled by `trigger_all_in`. -/
def allInDestinations (all_prefs : List Pref) : List String :=
  all_prefs.filterMap (fun p =>
    match p.destination with
    | some d => if d = "" then none else some (pyLower (pyStrip d))
    | none => none)

/-- `trigger_all_in`'s destination aggregation
    (`len(most_common) == 1 or most_common[0][1] > most_common[1][1]`). -/
def allInDestination (all_prefs : List Pref) : DestAgg :=
  let all_destinations := allInDestinations all_prefs
  if all_destinations.isEmpty then ⟨none, false, []⟩
  else
    match most_common all_destinations with
    | [] => ⟨none, false, []⟩
    | [a] => ⟨some a.1, false, []⟩
    | a :: b :: rest =>
      if b.2 < a.2 then ⟨some a.1, false, []⟩
      else
        ⟨none, true,
          ((a :: b :: rest).filter (fun kv => kv.2 == a.2)).map (fun kv => kv.1)⟩

/-- What one `trigger_all_in` call does. -/
inductive TriggerResult
  | alreadyStarted
  | noPreferencesError
  | datesIncompatible
  | consensusStarted (phase_tracking : PhaseTracking) (selected_dates : Option (Int × Int))
  | planningStarted (destination : Option String) (selected_dates : Option (Int × Int))
deriving DecidableEq, Repr

/-- The `status` marker carried in the response data of `trigger_all_in`
    (paths without an explicit marker are labelled for comparison). -/
def responseStatus : TriggerResult → String
  | .alreadyStarted => "already_started"
  | .noPreferencesError => "error"
  | .datesIncompatible => "dates_incompatible"
  | .consensusStarted _ _ => "consensus"
  | .planningStarted _ _ => "started"

/-- A `trigger_all_in` call with its side-effect footprint: how many trip
    updates were written and whether a background orchestrator run started. -/
structure TriggerOutcome where
  result : TriggerResult
  dbWrites : Nat
  orchestratorStarted : Bool
deriving DecidableEq, Repr

/-- The single-flight guard of `trigger_all_in`. -/
def alreadyStartedGuard (trip : TripDoc) : Bool :=
  (match trip.orchestrator_status with
   | some st => st = "running" ∨ st = "paused" ∨ st = "completed"
   | none => false)
  ||
  (match trip.status with
   | some st => st = "planning" ∨ st = "consensus"
   | none => false)

/-- `trip.py::trigger_all_in` as a pure function of the trip document and the
    stored preferences. -/
def trigger_all_in (trip : TripDoc) (all_prefs : List Pref) : TriggerOutcome :=
  if alreadyStartedGuard trip then ⟨.alreadyStarted, 0, false⟩
  else if trip.members_with_preferences.isEmpty then ⟨.noPreferencesError, 1, false⟩
  else
    let all_date_ranges := allInDates all_prefs
    let selected0 : Option (Int × Int) :=
      if all_date_ranges.isEmpty then none
      else some ((sortDesc countLe (tally all_date_ranges)).headD ((0, 0), 0)).1
    let agg := allInDestination all_prefs
    let destination :=
      if !truthyStr agg.destination && !agg.has_conflict then trip.destination
      else agg.destination
    match dateOutcome all_date_ranges with
    | .noCompatible => ⟨.datesIncompatible, 1, false⟩
    | dres =>
      let has_date_conflict := match dres with | .conflict _ => true | _ => false
      let overlaps := match dres with | .conflict o => o | _ => []
      let selected_dates := match dres with | .single r => some r | _ => selected0
      if agg.has_conflict || has_date_conflict then
        let current_phase :=
          if agg.has_conflict then some "destination_decision"
          else if has_date_conflict then some "date_selection"
          else none
        let pt : PhaseTracking :=
          ⟨current_phase,
            [("destination_decision",
               { status := if agg.has_conflict then "active" else "completed",
                 started_at := agg.has_conflict,
                 users_ready := [],
                 destination_options := if agg.has_conflict then agg.tied else [] }),
             ("date_selection",
               { status := if agg.has_conflict then "pending"
                   else if has_date_conflict then "active" else "completed",
                 started_at := !agg.has_conflict && has_date_conflict,
                 date_options := if has_date_conflict then overlaps else [] }),
             ("activity_voting", { status := "pending" }),
             ("itinerary_approval", { status := "pending" })]⟩
        ⟨.consensusStarted pt selected_dates, 2, true⟩
      else
        ⟨.planningStarted destination selected_dates, 2, true⟩

/-- The consensus-routing predicate exactly as the specification sentence
    states it: a current consensus phase with status `active`, excluding the
    user-action phases `activity_voting`/`itinerary_approval` while
    pending/active.  Written from the spec's words, for comparison with the
    code's routing. -/
def specConsensusActive (s : AgentState) : Bool :=
  match s.agent_data.phase_tracking with
  | none => false
  | some pt =>
    match pt.current_phase with
    | none => false
    | some cp =>
      let status := ((alookup pt.phases cp).getD PhaseData.empty).status
      if (cp = "activity_voting" ∨ cp = "itinerary_approval") ∧
          (status = "pending" ∨ status = "active") then false
      else status == "completed" = false && status == "active"

/-- Whether the `activity_voting` phase is completed, as the spec's
    itinerary-planner predicate requires. -/
def specActivityVotingCompleted (s : AgentState) : Bool :=
  match s.agent_data.phase_tracking with
  | none => false
  | some pt => ((alookup pt.phases "activity_voting").getD PhaseData.empty).status == "completed"

/-- The deterministic routing priority exactly as the specification sentence
    states it (claim C2): first match of (a) preferences not yet aggregated,
    (b) current consensus phase active, (c) preferences plus destination and
    no activity catalog, (d) catalog plus trip duration, no itinerary, and
    `activity_voting` completed.  Written from the spec's words, for
    comparison with the code's `deterministic_suggestion`. -/
def specClaimedSuggestion (s : AgentState) : Option String :=
  let ad := s.agent_data
  if !ad.preferences_summary then some "preference_processor"
  else if specConsensusActive s then some "consensus_resolver"
  else if ad.preferences_summary && truthyStr ad.destination && !ad.activity_catalog then
    some "destination_researcher"
  else if ad.activity_catalog && truthyNat (pyOrNat ad.trip_duration_days s.trip_duration_days)
      && !ad.itinerary && specActivityVotingCompleted s then
    some "itinerary_planner"
  else none

/-- A workflow state mid destination voting: preferences aggregated, a
    destination present, no activity catalog, and `destination_decision`
    current with status `voting_in_progress`. -/
def votingState : AgentState :=
  { trip_id := "trip1", steps := 3,
    agent_data :=
      { preferences_summary := true,
        destination := some "paris",
        activity_catalog := false,
        itinerary := false,
        trip_duration_days := some 5,
        phase_tracking := some
          ⟨some "destination_decision",
            [("destination_decision",
               { status := "voting_in_progress",
                 options := [{ value := "paris", label := "Paris", votes := 0, voters := [] },
                             { value := "rome", label := "Rome", votes := 0, voters := [] }] }),
             ("date_selection", { status := "pending" }),
             ("activity_voting", { status := "pending" }),
             ("itinerary_approval", { status := "pending" })]⟩ } }

/-- A workflow state parked on activity voting: catalog generated, no current
    phase, `activity_voting` active and not yet complete. -/
def pausedState : AgentState :=
  { trip_id := "trip2", steps := 5,
    agent_data :=
      { preferences_summary := true,
        destination := some "rome",
        activity_catalog := true,
        itinerary := false,
        trip_duration_days := some 4,
        phase_tracking := some
          ⟨none,
            [("activity_voting", { status := "active", users_ready := ["m1"] }),
             ("itinerary_approval", { status := "pending" })]⟩ } }

/-- A ready two-member activity-voting phase map, used as a concrete input. -/
def readyPhasesW : List (String × PhaseData) :=
  [("activity_voting", { status := "active", users_ready := ["m1", "m2"] })]

/-- A strongly downvoted activity. -/
def barCrawlW : Activity :=
  { name := "bar crawl", category := "Nightlife", net_score := 0, score := 1,
    downvote_count := 2 }

/-- An upvoted activity. -/
def museumW : Activity :=
  { name := "museum", category := "Culture", net_score := 2, score := 1, downvote_count := 0 }

/-- Voting state for destination consensus: two tied destinations, all three
    members' votes in. -/
def pdW : PhaseData :=
  { status := "voting_in_progress",
    options := [{ value := "a", label := "A", votes := 2, voters := ["m1", "m2"] },
                { value := "b", label := "B", votes := 1, voters := ["m3"] }] }

/-- Destination-decision input with tied mentions and every member voted. -/
def destInpW : DestInput :=
  { prefs := [some "A", some "a", some "B", some "b"],
    phases := [("destination_decision", pdW)],
    members := ["m1", "m2", "m3"], pick := 0 }

/-- A trip document whose orchestrator is already running. -/
def runningTrip : TripDoc :=
  { orchestrator_status := some "running", status := some "collecting_preferences",
    members := ["m1", "m2"], members_with_preferences := ["m1"],
    destination := some "paris" }

/-- The dates persisted by a `trigger_all_in` outcome, if any. -/
def selectedDatesOf : TriggerResult → Option (Int × Int)
  | .consensusStarted _ d => d
  | .planningStarted _ d => d
  | _ => none

/-- The date voting fodder stored by a `trigger_all_in` outcome. -/
def dateVotingOptions : TriggerResult → List (Int × Int)
  | .consensusStarted pt _ =>
    ((alookup pt.phases "date_selection").getD PhaseData.empty).date_options
  | _ => []

/-- The `date_selection` status written by a `trigger_all_in` outcome. -/
def dateStatusOf : TriggerResult → Option String
  | .consensusStarted pt _ => (alookup pt.phases "date_selection").map (fun p => p.status)
  | _ => none

/-! ## Theorems -/

/-- Every branch of the Supervisor advances the step counter by exactly one. -/
theorem supervisor_agent_steps (llm : Option (AgentState → String)) (s : AgentState) :
    (supervisor_agent llm s).steps = s.steps + 1 := by
  simp only [supervisor_agent]
  split
  · rfl
  · split
    · rfl
    · split <;> rfl

/-- Only the Supervisor moves the step counter, so after `n` decisions it has
    advanced by exactly `n`. -/
theorem runState_steps (llm : Option (AgentState → String))
    (env : Nat → AgentData → AgentData) (s0 : AgentState) :
    ∀ n, (runState llm env s0 n).steps = s0.steps + n
  | 0 => rfl
  | n + 1 => by
    simp only [runState, supervisor_agent_steps, runState_steps llm env s0 n]
    omega

/-- C1 (confirmed): once the incremented step counter reaches the fixed
    maximum of 20 the Supervisor returns `next_task="end"`, `done=true` with
    the max-steps reason; consequently any run started at step 0 — whatever
    the workers write into the agent-data bag and whatever the assistive
    routing oracle proposes — sees an `end` decision within 20 steps. -/
theorem supervisor_step_cap
    (llm : Option (AgentState → String)) (env : Nat → AgentData → AgentData)
    (s : AgentState) (hs : MAX_STEPS ≤ s.steps + 1)
    (s0 : AgentState) (h0 : s0.steps = 0) :
    supervisor_agent llm s =
      { next_task := "end", reason := "Reached maximum steps (20)",
        steps := s.steps + 1, done := true, usedLLM := false } ∧
    ∃ n, n < MAX_STEPS ∧
      (supervisor_agent llm (runState llm env s0 n)).next_task = "end" ∧
      (supervisor_agent llm (runState llm env s0 n)).done = true := by
  constructor
  · unfold supervisor_agent
    rw [if_pos hs]
  · refine ⟨19, by decide, ?_⟩
    have hsteps : (runState llm env s0 19).steps = 19 := by
      rw [runState_steps llm env s0 19, h0]
    have hcap : MAX_STEPS ≤ (runState llm env s0 19).steps + 1 := by
      rw [hsteps]; decide
    have : supervisor_agent llm (runState llm env s0 19) =
        { next_task := "end", reason := "Reached maximum steps (20)",
          steps := (runState llm env s0 19).steps + 1, done := true, usedLLM := false } := by
      unfold supervisor_agent
      rw [if_pos hcap]
    rw [this]
    exact ⟨rfl, rfl⟩

/-- Witness for `supervisor_step_cap` at a concrete capped state and a
    concrete fresh run. -/
theorem supervisor_step_cap_witness :
    MAX_STEPS ≤ 19 + 1 ∧ ({ steps := 0 } : AgentState).steps = 0 ∧
    (supervisor_agent none ({ steps := 19 } : AgentState) =
      { next_task := "end", reason := "Reached maximum steps (20)",
        steps := 20, done := true, usedLLM := false } ∧
      ∃ n, n < MAX_STEPS ∧
        (supervisor_agent none (runState none (fun _ d => d) { steps := 0 } n)).next_task = "end" ∧
        (supervisor_agent none (runState none (fun _ d => d) { steps := 0 } n)).done = true) := by
  refine ⟨by decide, rfl, ?_⟩
  exact supervisor_step_cap none (fun _ d => d) { steps := 19 } (by decide) { steps := 0 } rfl

/-- C2 counterexample: in `votingState` the spec's literal predicate list
    routes to `destination_researcher` (preferences aggregated, destination
    set, no catalog, and its consensus predicate does not fire on
    `voting_in_progress`), but the code's Supervisor — whose research
    predicate additionally skips while `destination_decision` is
    active/voting — pauses with `end`/`done=false`. -/
theorem routing_predicates_counterexample :
    specClaimedSuggestion votingState = some "destination_researcher" ∧
    deterministic_suggestion votingState = none ∧
    (supervisor_agent none votingState).next_task = "end" ∧
    (supervisor_agent none votingState).next_task ≠ "destination_researcher" ∧
    (supervisor_agent none votingState).done = false := by decide

/-- C2 (amended): routing is the first match, in priority order, of the
    code's four deterministic predicates — where the research predicate also
    requires `destination_decision` not to be active/voting, and the
    preference predicate a present trip id; a deterministic match is returned
    as-is without consulting the assistive oracle; the oracle is consulted
    only when no predicate fires and the state is not waiting on users; an
    oracle key outside the registry is coerced to `end`. -/
theorem supervisor_routing_deterministic_first
    (llm : Option (AgentState → String)) (s : AgentState) (f : AgentState → String)
    (hcap : s.steps + 1 < MAX_STEPS) :
    (needs_preference_processing s = true →
      deterministic_suggestion s = some "preference_processor") ∧
    (needs_preference_processing s = false → needs_consensus s = true →
      deterministic_suggestion s = some "consensus_resolver") ∧
    (needs_preference_processing s = false → needs_consensus s = false →
      needs_destination_research s = true →
      deterministic_suggestion s = some "destination_researcher") ∧
    (needs_preference_processing s = false → needs_consensus s = false →
      needs_destination_research s = false → needs_itinerary_generation s = true →
      deterministic_suggestion s = some "itinerary_planner") ∧
    (∀ k, deterministic_suggestion s = some k →
      supervisor_agent llm s =
        { next_task := k, reason := "Deterministic routing: " ++ k,
          steps := s.steps + 1, done := k == "end", usedLLM := false }) ∧
    ((supervisor_agent llm s).usedLLM = true →
      deterministic_suggestion s = none ∧ (is_waiting_for_user_action s).1 = false) ∧
    (deterministic_suggestion s = none → (is_waiting_for_user_action s).1 = false →
      llm = some f → f s ∉ workerKeys → f s ≠ "end" →
      (supervisor_agent llm s).next_task = "end") := by
  have hnocap : ¬ MAX_STEPS ≤ s.steps + 1 := by omega
  refine ⟨?_, ?_, ?_, ?_, ?_, ?_, ?_⟩
  · intro h1; simp [deterministic_suggestion, h1]
  · intro h1 h2; simp [deterministic_suggestion, h1, h2]
  · intro h1 h2 h3; simp [deterministic_suggestion, h1, h2, h3]
  · intro h1 h2 h3 h4; simp [deterministic_suggestion, h1, h2, h3, h4]
  · intro k hk
    unfold supervisor_agent
    rw [if_neg hnocap]
    simp only [hk]
    rw [if_neg (by simp)]
  · intro hused
    by_cases hsug : deterministic_suggestion s = none
    · constructor
      · exact hsug
      · by_contra hw
        have hw1 : (is_waiting_for_user_action s).1 = true := by
          cases h : (is_waiting_for_user_action s).1
          · exact absurd h hw
          · rfl
        have : (supervisor_agent llm s).usedLLM = false := by
          unfold supervisor_agent
          rw [if_neg hnocap]
          rw [if_pos ⟨hsug, hw1⟩]
        rw [this] at hused
        exact Bool.false_ne_true hused
    · obtain ⟨k, hk⟩ := Option.ne_none_iff_exists.mp hsug
      have : (supervisor_agent llm s).usedLLM = false := by
        unfold supervisor_agent
        rw [if_neg hnocap]
        simp only [← hk]
        rw [if_neg (by simp)]
      rw [this] at hused
      exact absurd hused Bool.false_ne_true
  · intro hsug hwait hllm hmem hend
    unfold supervisor_agent
    rw [if_neg hnocap]
    simp only [hsug, hllm]
    rw [if_neg (by simp [hwait])]
    simp [hmem, hend]

/-- Witness for `supervisor_routing_deterministic_first` on a fresh state that
    needs preference processing. -/
theorem supervisor_routing_deterministic_first_witness :
    ({ trip_id := "t" } : AgentState).steps + 1 < MAX_STEPS ∧
    deterministic_suggestion { trip_id := "t" } = some "preference_processor" ∧
    supervisor_agent none { trip_id := "t" } =
      { next_task := "preference_processor",
        reason := "Deterministic routing: preference_processor",
        steps := 1, done := false, usedLLM := false } := by
  refine ⟨by decide, by decide, ?_⟩
  have h := supervisor_routing_deterministic_first none { trip_id := "t" }
    (fun _ => "bogus") (by decide)
  have h5 := h.2.2.2.2.1 "preference_processor" (by decide)
  rw [h5]
  decide

/-- C3 (confirmed): below the step cap, when no deterministic predicate fires
    and the waiting-for-user predicate holds, the Supervisor pauses: it
    returns `next_task="end"` with `done=false` and the waiting reason, and
    the assistive oracle is not consulted. -/
theorem supervisor_pauses_for_user_action
    (llm : Option (AgentState → String)) (s : AgentState)
    (hcap : s.steps + 1 < MAX_STEPS)
    (hsug : deterministic_suggestion s = none)
    (hwait : (is_waiting_for_user_action s).1 = true) :
    supervisor_agent llm s =
      { next_task := "end", reason := (is_waiting_for_user_action s).2,
        steps := s.steps + 1, done := false, usedLLM := false } := by
  unfold supervisor_agent
  rw [if_neg (by omega)]
  rw [if_pos ⟨hsug, hwait⟩]

/-- Witness for `supervisor_pauses_for_user_action` at a state parked on
    activity voting. -/
theorem supervisor_pauses_for_user_action_witness :
    pausedState.steps + 1 < MAX_STEPS ∧
    deterministic_suggestion pausedState = none ∧
    (is_waiting_for_user_action pausedState).1 = true ∧
    supervisor_agent none pausedState =
      { next_task := "end", reason := "Waiting for activity voting to start/complete",
        steps := 6, done := false, usedLLM := false } := by
  refine ⟨by decide, by decide, by decide, ?_⟩
  have h := supervisor_pauses_for_user_action none pausedState (by decide) (by decide) (by decide)
  rw [h]
  decide

/-- One accepted submission keeps every option's stored count equal to its
    voters-list length and keeps the voters list duplicate-free. -/
theorem submitVoteOptions_inv (u : String) (sel : List String) (opts : List VoteOption)
    (h : ∀ o ∈ opts, o.votes = o.voters.length ∧ o.voters.Nodup) :
    ∀ o ∈ submitVoteOptions u sel opts, o.votes = o.voters.length ∧ o.voters.Nodup := by
  intro o2 hmem
  unfold submitVoteOptions addUserVotes clearUserVotes at hmem
  obtain ⟨o1, ho1, rfl⟩ := List.mem_map.mp hmem
  obtain ⟨o0, ho0, rfl⟩ := List.mem_map.mp ho1
  obtain ⟨hv, hnd⟩ := h o0 ho0
  dsimp only
  by_cases hc : u ∈ o0.voters
  · rw [if_pos hc]
    dsimp only
    have hndE : (o0.voters.erase u).Nodup := hnd.erase u
    have hu : u ∉ o0.voters.erase u := fun hm => ((hnd.mem_erase_iff).mp hm).1 rfl
    by_cases hs : o0.value ∈ sel
    · rw [if_pos hs, if_neg hu]
      exact ⟨rfl, hndE.append (List.nodup_singleton u)
        (fun a ha hb => by rw [List.mem_singleton] at hb; subst hb; exact hu ha)⟩
    · rw [if_neg hs]
      exact ⟨rfl, hndE⟩
  · rw [if_neg hc]
    by_cases hs : o0.value ∈ sel
    · rw [if_pos hs, if_neg hc]
      exact ⟨rfl, hnd.append (List.nodup_singleton u)
        (fun a ha hb => by rw [List.mem_singleton] at hb; subst hb; exact hc ha)⟩
    · rw [if_neg hs]
      exact ⟨hv, hnd⟩

/-- Iterating accepted submissions preserves the vote-count invariant. -/
theorem foldVotes_inv (subs : List (String × List String)) (options0 : List VoteOption)
    (h : ∀ o ∈ options0, o.votes = o.voters.length ∧ o.voters.Nodup) :
    ∀ o ∈ subs.foldl (fun os uv => submitVoteOptions uv.1 uv.2 os) options0,
      o.votes = o.voters.length ∧ o.voters.Nodup := by
  induction subs generalizing options0 with
  | nil => exact h
  | cons uv rest ih =>
    exact ih (submitVoteOptions uv.1 uv.2 options0) (submitVoteOptions_inv uv.1 uv.2 options0 h)

/-- After a submission by `u`, `u` sits in exactly the options `u` selected
    (earlier selections are replaced, not accumulated). -/
theorem submitVoteOptions_mem_iff (u : String) (sel : List String) (opts : List VoteOption)
    (h : ∀ o ∈ opts, o.voters.Nodup) :
    ∀ o ∈ submitVoteOptions u sel opts, (u ∈ o.voters ↔ o.value ∈ sel) := by
  intro o2 hmem
  unfold submitVoteOptions addUserVotes clearUserVotes at hmem
  obtain ⟨o1, ho1, rfl⟩ := List.mem_map.mp hmem
  obtain ⟨o0, ho0, rfl⟩ := List.mem_map.mp ho1
  have hnd := h o0 ho0
  dsimp only
  by_cases hc : u ∈ o0.voters
  · rw [if_pos hc]
    dsimp only
    have hu : u ∉ o0.voters.erase u := fun hm => ((hnd.mem_erase_iff).mp hm).1 rfl
    by_cases hs : o0.value ∈ sel
    · rw [if_pos hs, if_neg hu]
      dsimp only
      simp [hs]
    · rw [if_neg hs]
      exact ⟨fun hm => absurd hm hu, fun hm => absurd hm hs⟩
  · rw [if_neg hc]
    by_cases hs : o0.value ∈ sel
    · rw [if_pos hs, if_neg hc]
      dsimp only
      simp [hs]
    · rw [if_neg hs]
      exact ⟨fun hm => absurd hm hc, fun hm => absurd hm hs⟩

/-- C6 (confirmed): starting from freshly created options, after any sequence
    of vote submissions every option's stored `votes` equals the number of
    distinct member ids in its `voters` list (which stays duplicate-free), and
    one further submission by any member leaves that member in exactly the
    options they selected — resubmission replaces rather than accumulates. -/
theorem vote_count_invariant
    (subs : List (String × List String)) (options0 : List VoteOption)
    (h0 : ∀ o ∈ options0, o.votes = 0 ∧ o.voters = []) :
    (∀ o ∈ subs.foldl (fun os uv => submitVoteOptions uv.1 uv.2 os) options0,
      o.votes = o.voters.dedup.length ∧ o.voters.Nodup) ∧
    (∀ u sel o, o ∈ submitVoteOptions u sel
        (subs.foldl (fun os uv => submitVoteOptions uv.1 uv.2 os) options0) →
      (u ∈ o.voters ↔ o.value ∈ sel)) := by
  have hbase : ∀ o ∈ options0, o.votes = o.voters.length ∧ o.voters.Nodup := by
    intro o ho
    obtain ⟨h1, h2⟩ := h0 o ho
    rw [h1, h2]
    exact ⟨rfl, List.nodup_nil⟩
  have hinv := foldVotes_inv subs options0 hbase
  constructor
  · intro o ho
    obtain ⟨h1, h2⟩ := hinv o ho
    rw [h2.dedup]
    exact ⟨h1, h2⟩
  · intro u sel o ho
    exact submitVoteOptions_mem_iff u sel _ (fun o2 ho2 => (hinv o2 ho2).2) o ho

/-- Witness for `vote_count_invariant`: two members vote, one revotes. -/
theorem vote_count_invariant_witness :
    (∀ o ∈ [({ value := "paris", label := "Paris", votes := 0, voters := [] } : VoteOption),
            { value := "rome", label := "Rome", votes := 0, voters := [] }], o.votes = 0 ∧ o.voters = []) ∧
    (∀ o ∈ [("m1", ["paris"]), ("m2", ["rome"]), ("m1", ["rome"])].foldl
        (fun os uv => submitVoteOptions uv.1 uv.2 os)
        [({ value := "paris", label := "Paris", votes := 0, voters := [] } : VoteOption),
         { value := "rome", label := "Rome", votes := 0, voters := [] }],
      o.votes = o.voters.dedup.length ∧ o.voters.Nodup) := by
  refine ⟨by decide, ?_⟩
  exact (vote_count_invariant [("m1", ["paris"]), ("m2", ["rome"]), ("m1", ["rome"])]
    [{ value := "paris", label := "Paris", votes := 0, voters := [] },
     { value := "rome", label := "Rome", votes := 0, voters := [] }] (by decide)).1

/-- C10 (confirmed): every accepted vote submission also records the voter in
    the phase's `users_ready` list: the returned ready list is the stored one,
    extended with the voter when absent, and always contains the voter. -/
theorem submit_vote_marks_ready
    (phases : List (String × PhaseData)) (members : List String)
    (phase user_id : String) (selected : List String)
    (options : List VoteOption) (users_ready : List String) (trig : Bool)
    (hacc : submit_vote phases members phase user_id selected =
      VoteOutcome.accepted options users_ready trig) :
    user_id ∈ users_ready ∧
    ∃ pd, alookup phases phase = some pd ∧
      users_ready = (if user_id ∈ pd.users_ready then pd.users_ready
        else pd.users_ready ++ [user_id]) ∧
      options = submitVoteOptions user_id selected pd.options := by
  unfold submit_vote at hacc
  split at hacc
  · exact absurd hacc (by simp)
  · rename_i pd hl
    split at hacc
    · exact absurd hacc (by simp)
    · split at hacc
      · exact absurd hacc (by simp)
      · injection hacc with h1 h2 h3
        refine ⟨?_, pd, hl, h2.symm, h1.symm⟩
        rw [← h2]
        by_cases hin : user_id ∈ pd.users_ready
        · rw [if_pos hin]; exact hin
        · rw [if_neg hin]; simp

/-- Witness for `submit_vote_marks_ready` at a concrete accepted vote. -/
theorem submit_vote_marks_ready_witness :
    submit_vote
      [("destination_decision",
        { status := "voting_in_progress",
          options := [{ value := "paris", label := "Paris", votes := 0, voters := [] },
                      { value := "rome", label := "Rome", votes := 0, voters := [] }],
          users_ready := [] })]
      ["m1", "m2"] "destination_decision" "m1" ["paris"] =
      VoteOutcome.accepted
        [{ value := "paris", label := "Paris", votes := 1, voters := ["m1"] },
         { value := "rome", label := "Rome", votes := 0, voters := [] }]
        ["m1"] false ∧
    "m1" ∈ (["m1"] : List String) := by
  refine ⟨by decide, ?_⟩
  exact (submit_vote_marks_ready
    [("destination_decision",
      { status := "voting_in_progress",
        options := [{ value := "paris", label := "Paris", votes := 0, voters := [] },
                    { value := "rome", label := "Rome", votes := 0, voters := [] }],
        users_ready := [] })]
    ["m1", "m2"] "destination_decision" "m1" ["paris"]
    [{ value := "paris", label := "Paris", votes := 1, voters := ["m1"] },
     { value := "rome", label := "Rome", votes := 0, voters := [] }]
    ["m1"] false (by decide)).1

/-- Looking a key up after updating it. -/
theorem alookup_aupdate {β : Type} (l : List (String × β)) (k j : String) (f : β → β) :
    alookup (aupdate l k f) j = if j = k then (alookup l j).map f else alookup l j := by
  induction l with
  | nil =>
    simp only [aupdate, List.map_nil, alookup]
    split <;> rfl
  | cons kv rest ih =>
    simp only [aupdate] at ih ⊢
    simp only [List.map_cons]
    by_cases hk : kv.1 = k
    · subst hk
      by_cases hj : kv.1 = j
      · subst hj
        simp [alookup]
      · have hjk : ¬ j = kv.1 := fun h => hj h.symm
        simp [alookup, hj, hjk, ih]
    · by_cases hj : kv.1 = j
      · subst hj
        simp [alookup, hk, ih]
      · have hjk : ¬ j = kv.1 := fun h => hj h.symm
        simp [alookup, hk, hj, ih]

/-- Looking up in an appended association list. -/
theorem alookup_append {α β : Type} [DecidableEq α] (l1 l2 : List (α × β)) (j : α) :
    alookup (l1 ++ l2) j =
      match alookup l1 j with
      | some v => some v
      | none => alookup l2 j := by
  induction l1 with
  | nil => simp [alookup]
  | cons kv rest ih =>
    by_cases hj : kv.1 = j
    · simp [alookup, hj]
    · simp [alookup, hj, ih]

/-- Looking up a tally after one increment. -/
theorem alookup_aincr (counts : List (String × Nat)) (c j : String) :
    (alookup (aincr counts c) j).getD 0 =
      (alookup counts j).getD 0 + (if j = c then 1 else 0) := by
  unfold aincr
  cases h : alookup counts c with
  | some n =>
    rw [alookup_aupdate]
    by_cases hj : j = c
    · rw [if_pos hj, if_pos hj, hj, h]
      rfl
    · rw [if_neg hj, if_neg hj]
      omega
  | none =>
    rw [alookup_append]
    by_cases hj : j = c
    · subst hj
      rw [h]
      simp [alookup]
    · rw [if_neg hj]
      cases hl : alookup counts j with
      | some v => rfl
      | none =>
        have hcj : ¬ c = j := fun h2 => hj h2.symm
        simp [alookup, hcj]

/-- C5 counterexample phase map: a one-member trip whose activity voting is
    ready to resolve while itinerary approval is still pending. -/
def phasesC5 : List (String × PhaseData) :=
  [("destination_decision", { status := "completed", completed_at := true }),
   ("date_selection", { status := "completed", completed_at := true }),
   ("activity_voting", { status := "active", users_ready := ["m1"] }),
   ("itinerary_approval", { status := "pending" })]

/-- A voted-up activity used in the C5 counterexample. -/
def actC5 : Activity :=
  { name := "museum", category := "Culture", net_score := 2, score := 1, downvote_count := 0 }

/-- The completion helper always reports the destination it was given. -/
theorem resolveDestination_result (phases : List (String × PhaseData)) (x : String) :
    ∃ np2, (resolveDestination phases x).result = DestResult.resolved x np2 := by
  unfold resolveDestination
  dsimp only
  split
  · exact ⟨some "date_selection", rfl⟩
  · exact ⟨none, rfl⟩

/-- If `decide_destination` resolves, it did so through the shared completion
    helper on the input phase map. -/
theorem decide_destination_resolved (inp : DestInput) (d : String) (np : Option String)
    (hres : (decide_destination inp).result = DestResult.resolved d np) :
    decide_destination inp = resolveDestination inp.phases d := by
  have hrd : ∀ x, (resolveDestination inp.phases x).result = DestResult.resolved d np →
      x = d := by
    intro x hx
    obtain ⟨np2, h2⟩ := resolveDestination_result inp.phases x
    rw [h2] at hx
    injection hx with ha hb
  unfold decide_destination at hres ⊢
  by_cases h1 : inp.prefs.isEmpty = true
  · rw [if_pos h1] at hres
    exact absurd hres (by simp)
  · rw [if_neg h1] at hres ⊢
    dsimp only at hres ⊢
    by_cases h2 : (destMentions inp.prefs).isEmpty = true
    · rw [if_pos h2] at hres
      exact absurd hres (by simp)
    · rw [if_neg h2] at hres ⊢
      by_cases h3 : tieDetected (most_common (destMentions inp.prefs)) = true
      · rw [if_pos h3] at hres ⊢
        by_cases h4 : ((alookup inp.phases "destination_decision").getD
            PhaseData.empty).options.isEmpty = true
        · rw [if_pos h4] at hres
          exact absurd hres (by simp)
        · rw [if_neg h4] at hres ⊢
          by_cases h5 : ((voteCounts ((alookup inp.phases "destination_decision").getD
              PhaseData.empty).options).map (fun kv => kv.2)).sum = 0
          · rw [if_pos h5] at hres
            exact absurd hres (by simp)
          · rw [if_neg h5] at hres ⊢
            by_cases h6 : (allVoters ((alookup inp.phases "destination_decision").getD
                PhaseData.empty).options).length < inp.members.length
            · rw [if_pos h6] at hres
              exact absurd hres (by simp)
            · rw [if_neg h6] at hres ⊢
              rw [hrd _ hres]
      · rw [if_neg h3] at hres ⊢
        rw [hrd _ hres]

/-- C5 counterexample: on a ready one-member trip, resolving `activity_voting`
    marks it completed with `completed_at` but writes `current_phase = None`
    while `itinerary_approval` is still pending — it does not advance to the
    still-pending `itinerary_approval` phase as the claim states. -/
theorem phase_advance_counterexample :
    (decide_activities phasesC5 ["m1"] [actC5]).currentPhaseAfter = none ∧
    (decide_activities phasesC5 ["m1"] [actC5]).currentPhaseAfter ≠ some "itinerary_approval" ∧
    (alookup (decide_activities phasesC5 ["m1"] [actC5]).phasesAfter "itinerary_approval").map
      (fun pd => pd.status) = some "pending" ∧
    (alookup (decide_activities phasesC5 ["m1"] [actC5]).phasesAfter "activity_voting").map
      (fun pd => (pd.status, pd.completed_at)) = some ("completed", true) := by decide

/-- C5 (amended): resolving a phase marks it `completed` and sets
    `completed_at`, but `current_phase` is not always advanced to the next
    pending phase: destination resolution advances to `date_selection` exactly
    when that phase is pending with date options and otherwise clears
    `current_phase`, and activity resolution always clears `current_phase` to
    none (itinerary approval is auto-skipped as a gate). -/
theorem phase_resolution_bookkeeping
    (phases : List (String × PhaseData)) (members : List String)
    (activities : List Activity) (pdAV : PhaseData)
    (hav : alookup phases "activity_voting" = some pdAV)
    (hready : members.length ≤ pdAV.users_ready.length)
    (hacts : activities.isEmpty = false)
    (inp : DestInput) (d : String) (np : Option String)
    (hres : (decide_destination inp).result = DestResult.resolved d np) :
    ((alookup (decide_activities phases members activities).phasesAfter "activity_voting").map
        (fun pd => (pd.status, pd.completed_at)) = some ("completed", true) ∧
      (decide_activities phases members activities).currentPhaseAfter = none) ∧
    ((alookup (decide_destination inp).phasesAfter "destination_decision").map
        (fun pd => (pd.status, pd.completed_at)) =
        (alookup inp.phases "destination_decision").map (fun _ => ("completed", true)) ∧
      (decide_destination inp).currentPhaseAfter =
        (if ((alookup inp.phases "date_selection").getD PhaseData.empty).status = "pending" ∧
            0 < ((alookup inp.phases "date_selection").getD PhaseData.empty).date_options.length
         then some "date_selection" else none)) := by
  constructor
  · unfold decide_activities
    rw [hav]
    simp only [Option.getD_some]
    rw [if_neg (by omega)]
    rw [if_neg (by simp [hacts])]
    dsimp only
    constructor
    · rw [alookup_aupdate, if_pos rfl, hav]
      rfl
    · rfl
  · constructor
    · rw [decide_destination_resolved inp d np hres]
      unfold resolveDestination
      dsimp only
      split
      · rw [alookup_aupdate, if_neg (by decide), alookup_aupdate, if_pos rfl]
        cases alookup inp.phases "destination_decision" <;> rfl
      · rw [alookup_aupdate, if_pos rfl]
        cases alookup inp.phases "destination_decision" <;> rfl
    · rw [decide_destination_resolved inp d np hres]
      unfold resolveDestination
      dsimp only
      split
      · rfl
      · rfl

/-- Witness for `phase_resolution_bookkeeping`: a ready one-member activity
    phase and a majority destination decision. -/
theorem phase_resolution_bookkeeping_witness :
    alookup phasesC5 "activity_voting" =
      some { status := "active", users_ready := ["m1"] } ∧
    (decide_destination
        { prefs := [some "A", some "a", some "B"], phases := phasesC5,
          members := ["m1"], pick := 0 }).result = DestResult.resolved "a" none ∧
    (decide_activities phasesC5 ["m1"] [actC5]).currentPhaseAfter = none ∧
    (decide_destination
        { prefs := [some "A", some "a", some "B"], phases := phasesC5,
          members := ["m1"], pick := 0 }).currentPhaseAfter =
      (if ((alookup phasesC5 "date_selection").getD PhaseData.empty).status = "pending" ∧
          0 < ((alookup phasesC5 "date_selection").getD PhaseData.empty).date_options.length
       then some "date_selection" else none) := by
  refine ⟨by decide, by decide, ?_, ?_⟩
  · exact (phase_resolution_bookkeeping phasesC5 ["m1"] [actC5]
      { status := "active", users_ready := ["m1"] } (by decide) (by decide) (by decide)
      { prefs := [some "A", some "a", some "B"], phases := phasesC5, members := ["m1"], pick := 0 }
      "a" none (by decide)).1.2
  · exact (phase_resolution_bookkeeping phasesC5 ["m1"] [actC5]
      { status := "active", users_ready := ["m1"] } (by decide) (by decide) (by decide)
      { prefs := [some "A", some "a", some "B"], phases := phasesC5, members := ["m1"], pick := 0 }
      "a" none (by decide)).2.2

/-- Stable descending insertion permutes consing. -/
theorem insDesc_perm {α : Type} (le : α → α → Bool) (a : α) (l : List α) :
    (insDesc le a l).Perm (a :: l) := by
  induction l with
  | nil => exact List.Perm.refl _
  | cons b bs ih =>
    unfold insDesc
    split
    · exact (ih.cons b).trans (List.Perm.swap a b bs)
    · exact List.Perm.refl _

/-- Folding stable insertions permutes appending. -/
theorem sortDesc_perm_aux {α : Type} (le : α → α → Bool) (l : List α) :
    ∀ acc : List α, (l.foldl (fun ac a => insDesc le a ac) acc).Perm (l ++ acc) := by
  induction l with
  | nil => intro acc; simp
  | cons a rest ih =>
    intro acc
    have h1 := ih (insDesc le a acc)
    have h2 : (rest ++ insDesc le a acc).Perm (rest ++ (a :: acc)) :=
      List.Perm.append_left rest (insDesc_perm le a acc)
    have h3 : (rest ++ (a :: acc)).Perm (a :: (rest ++ acc)) := List.perm_middle
    simpa using h1.trans (h2.trans h3)

/-- The stable descending sort is a permutation of its input. -/
theorem sortDesc_perm {α : Type} (le : α → α → Bool) (l : List α) :
    (sortDesc le l).Perm l := by
  have h := sortDesc_perm_aux le l []
  simpa [sortDesc] using h

/-- Stable descending insertion preserves descending orderedness for a total
    transitive comparison. -/
theorem insDesc_pairwise {α : Type} (le : α → α → Bool)
    (htot : ∀ x y, le x y = true ∨ le y x = true)
    (htrans : ∀ x y z, le x y = true → le y z = true → le x z = true)
    (a : α) (l : List α) (h : l.Pairwise (fun x y => le y x = true)) :
    (insDesc le a l).Pairwise (fun x y => le y x = true) := by
  induction l with
  | nil => simp [insDesc]
  | cons b bs ih =>
    rw [List.pairwise_cons] at h
    obtain ⟨hb, hbs⟩ := h
    unfold insDesc
    split
    · rename_i hab
      rw [List.pairwise_cons]
      refine ⟨?_, ih hbs⟩
      intro y hy
      rcases List.mem_cons.mp ((insDesc_perm le a bs).mem_iff.mp hy) with rfl | h1
      · exact hab
      · exact hb y h1
    · rename_i hab
      have hba : le b a = true := by
        rcases htot a b with h2 | h2
        · exact absurd h2 hab
        · exact h2
      rw [List.pairwise_cons]
      refine ⟨?_, List.pairwise_cons.mpr ⟨hb, hbs⟩⟩
      intro y hy
      rcases List.mem_cons.mp hy with rfl | h1
      · exact hba
      · exact htrans y b a (hb y h1) hba

/-- The stable descending sort is descending-sorted for a total transitive
    comparison. -/
theorem sortDesc_pairwise {α : Type} (le : α → α → Bool)
    (htot : ∀ x y, le x y = true ∨ le y x = true)
    (htrans : ∀ x y z, le x y = true → le y z = true → le x z = true)
    (l : List α) :
    (sortDesc le l).Pairwise (fun x y => le y x = true) := by
  have aux : ∀ (l2 acc : List α), acc.Pairwise (fun x y => le y x = true) →
      (l2.foldl (fun ac a => insDesc le a ac) acc).Pairwise (fun x y => le y x = true) := by
    intro l2
    induction l2 with
    | nil => intro acc hacc; exact hacc
    | cons a rest ih =>
      intro acc hacc
      exact ih (insDesc le a acc) (insDesc_pairwise le htot htrans a acc hacc)
  exact aux l [] List.Pairwise.nil

/-- The invariants of the selection loop of `_decide_activities`: at most 35
    picks, only positively voted candidates, at most 7 per category, and only
    candidates drawn from the scanned list. -/
theorem selectLoop_spec (orig : List Activity) :
    ∀ (rest sel : List Activity) (counts : List (String × Nat)),
    sel.length < 35 →
    (∀ c, (alookup counts c).getD 0 = (sel.filter (fun a => a.category == c)).length) →
    (∀ c, (sel.filter (fun a => a.category == c)).length ≤ 7) →
    (∀ a ∈ sel, 1 ≤ a.net_score) →
    (∀ a ∈ sel, a ∈ orig) →
    (∀ a ∈ rest, a ∈ orig) →
    (selectLoop rest sel counts).length ≤ 35 ∧
    (∀ a ∈ selectLoop rest sel counts, 1 ≤ a.net_score) ∧
    (∀ c, ((selectLoop rest sel counts).filter (fun a => a.category == c)).length ≤ 7) ∧
    (∀ a ∈ selectLoop rest sel counts, a ∈ orig) := by
  intro rest
  induction rest with
  | nil =>
    intro sel counts h35 hcounts h7 hnet hmem hrest
    unfold selectLoop
    refine ⟨?_, ?_, ?_, ?_⟩
    · rw [List.length_reverse]; omega
    · intro x hx; exact hnet x (List.mem_reverse.mp hx)
    · intro c; rw [List.filter_reverse, List.length_reverse]; exact h7 c
    · intro x hx; exact hmem x (List.mem_reverse.mp hx)
  | cons a rest ih =>
    intro sel counts h35 hcounts h7 hnet hmem hrest
    unfold selectLoop
    by_cases hcap : 7 ≤ (alookup counts a.category).getD 0
    · rw [if_pos hcap]
      exact ih sel counts h35 hcounts h7 hnet hmem
        (fun x hx => hrest x (List.mem_cons_of_mem a hx))
    · rw [if_neg hcap]
      by_cases hneg : a.net_score < 1
      · rw [if_pos hneg]
        exact ih sel counts h35 hcounts h7 hnet hmem
          (fun x hx => hrest x (List.mem_cons_of_mem a hx))
      · rw [if_neg hneg]
        dsimp only
        have hcnt : ∀ c, ((a :: sel).filter (fun x => x.category == c)).length =
            (sel.filter (fun x => x.category == c)).length +
              (if (a.category == c) = true then 1 else 0) := by
          intro c
          rw [List.filter_cons]
          split
          · simp
          · simp
        have h7sel : ∀ c, ((a :: sel).filter (fun x => x.category == c)).length ≤ 7 := by
          intro c
          rw [hcnt c]
          by_cases hc : (a.category == c) = true
          · have hceq : a.category = c := by simpa using hc
            subst hceq
            rw [if_pos hc]
            have hx := hcounts a.category
            omega
          · rw [if_neg hc]
            have := h7 c
            omega
        have hcounts2 : ∀ c, (alookup (aincr counts a.category) c).getD 0 =
            ((a :: sel).filter (fun x => x.category == c)).length := by
          intro c
          rw [alookup_aincr, hcounts c, hcnt c]
          by_cases hc : c = a.category
          · subst hc
            simp
          · have hc2 : (a.category == c) = false := by
              simp only [beq_eq_false_iff_ne, ne_eq]
              exact fun h => hc h.symm
            rw [if_neg hc, hc2]
            simp
        have hnet2 : ∀ x ∈ a :: sel, 1 ≤ x.net_score := by
          intro x hx
          rcases List.mem_cons.mp hx with rfl | hx2
          · omega
          · exact hnet x hx2
        have hmem2 : ∀ x ∈ a :: sel, x ∈ orig := by
          intro x hx
          rcases List.mem_cons.mp hx with rfl | hx2
          · exact hrest _ (List.mem_cons_self _ _)
          · exact hmem x hx2
        by_cases hstop : 35 ≤ (a :: sel).length
        · rw [if_pos hstop]
          refine ⟨?_, ?_, ?_, ?_⟩
          · rw [List.length_reverse]
            have : (a :: sel).length = sel.length + 1 := rfl
            omega
          · intro x hx; exact hnet2 x (List.mem_reverse.mp hx)
          · intro c; rw [List.filter_reverse, List.length_reverse]; exact h7sel c
          · intro x hx; exact hmem2 x (List.mem_reverse.mp hx)
        · rw [if_neg hstop]
          refine ih (a :: sel) (aincr counts a.category) ?_ hcounts2 h7sel hnet2 hmem2
            (fun x hx => hrest x (List.mem_cons_of_mem a hx))
          have : (a :: sel).length = sel.length + 1 := rfl
          omega

/-- If `decide_activities` selected, the selection is the loop's output on the
    ranked catalog. -/
theorem decide_activities_selected (phases : List (String × PhaseData))
    (members : List String) (activities : List Activity) (sel : List Activity)
    (hsel : (decide_activities phases members activities).result = ActResult.selected sel) :
    sel = selectActivities (sortActivities activities) := by
  unfold decide_activities at hsel
  by_cases h1 : ((alookup phases "activity_voting").getD PhaseData.empty).users_ready.length <
      members.length
  · rw [if_pos h1] at hsel
    exact absurd hsel (by simp)
  · rw [if_neg h1] at hsel
    by_cases h2 : activities.isEmpty = true
    · rw [if_pos h2] at hsel
      exact absurd hsel (by simp)
    · rw [if_neg h2] at hsel
      dsimp only at hsel
      injection hsel with h
      exact h.symm

/-- C9 (confirmed): activity selection happens only once the ready list covers
    every member (the length gate, which under duplicate-free member and ready
    lists with ready members is exact coverage); candidates are ranked by the
    descending score `10*net_score + 50*score - 30·[downvotes ≥ 2]`, and the
    selection admits only candidates with `net_score ≥ 1`, at most 7 per
    category and at most 35 in total, all drawn from the catalog. -/
theorem activity_selection_rule
    (phases : List (String × PhaseData)) (members : List String)
    (activities : List Activity) (pdAV : PhaseData)
    (hav : alookup phases "activity_voting" = some pdAV)
    (hsub : ∀ u ∈ pdAV.users_ready, u ∈ members)
    (hndr : pdAV.users_ready.Nodup) (hndm : members.Nodup) :
    (pdAV.users_ready.length < members.length →
      (decide_activities phases members activities).result =
        ActResult.waiting pdAV.users_ready.length members.length) ∧
    (members.length ≤ pdAV.users_ready.length → ∀ m ∈ members, m ∈ pdAV.users_ready) ∧
    (sortActivities activities).Pairwise (fun a b => final_score b ≤ final_score a) ∧
    (sortActivities activities).Perm activities ∧
    (∀ sel, (decide_activities phases members activities).result = ActResult.selected sel →
      sel.length ≤ 35 ∧ (∀ a ∈ sel, 1 ≤ a.net_score) ∧
      (∀ c, (sel.filter (fun a => a.category == c)).length ≤ 7) ∧
      (∀ a ∈ sel, a ∈ activities)) := by
  have htot : ∀ x y, activityLe x y = true ∨ activityLe y x = true := by
    intro x y
    rcases le_total (final_score x) (final_score y) with h | h
    · left; simpa [activityLe] using h
    · right; simpa [activityLe] using h
  have htrans : ∀ x y z, activityLe x y = true → activityLe y z = true →
      activityLe x z = true := by
    intro x y z hxy hyz
    simp only [activityLe, decide_eq_true_eq] at hxy hyz ⊢
    exact le_trans hxy hyz
  refine ⟨?_, ?_, ?_, ?_, ?_⟩
  · intro hlt
    unfold decide_activities
    rw [hav]
    simp only [Option.getD_some]
    rw [if_pos hlt]
  · intro hge m hm
    have hsubF : pdAV.users_ready.toFinset ⊆ members.toFinset := by
      intro x hx
      rw [List.mem_toFinset] at hx ⊢
      exact hsub x hx
    have hcard : members.toFinset.card ≤ pdAV.users_ready.toFinset.card := by
      rw [List.toFinset_card_of_nodup hndr, List.toFinset_card_of_nodup hndm]
      exact hge
    have heq := Finset.eq_of_subset_of_card_le hsubF hcard
    have : m ∈ pdAV.users_ready.toFinset := by
      rw [heq, List.mem_toFinset]
      exact hm
    rw [List.mem_toFinset] at this
    exact this
  · have hp := sortDesc_pairwise activityLe htot htrans activities
    refine hp.imp ?_
    intro a b hab
    simpa [activityLe] using hab
  · exact sortDesc_perm activityLe activities
  · intro sel hsel
    have hsel2 := decide_activities_selected phases members activities sel hsel
    have hmemall : ∀ a ∈ sortActivities activities, a ∈ activities := by
      intro a ha
      exact (sortDesc_perm activityLe activities).mem_iff.mp ha
    have hspec := selectLoop_spec activities (sortActivities activities) [] []
      (by decide) (by intro c; simp [alookup]) (by intro c; simp) (by intro a ha; cases ha)
      (by intro a ha; cases ha) hmemall
    rw [hsel2]
    exact hspec

/-- Witness for `activity_selection_rule`: a ready two-member phase with one
    downvoted and one upvoted activity. -/
theorem activity_selection_rule_witness :
    alookup readyPhasesW "activity_voting" =
      some { status := "active", users_ready := ["m1", "m2"] } ∧
    (decide_activities readyPhasesW ["m1", "m2"] [barCrawlW, museumW]).result =
      ActResult.selected [museumW] ∧
    (∀ a ∈ [museumW], 1 ≤ a.net_score) := by
  refine ⟨by decide, by decide, ?_⟩
  exact ((activity_selection_rule readyPhasesW ["m1", "m2"] [barCrawlW, museumW]
    { status := "active", users_ready := ["m1", "m2"] }
    (by decide) (by decide) (by decide) (by decide)).2.2.2.2
    [museumW] (by decide)).2.1

/-- A `none` lookup means the key is absent. -/
theorem alookup_eq_none_forall {α β : Type} [DecidableEq α] (l : List (α × β)) (k : α)
    (h : alookup l k = none) : ∀ p ∈ l, p.1 ≠ k := by
  induction l with
  | nil => intro p hp; cases hp
  | cons kv rest ih =>
    intro p hp
    unfold alookup at h
    by_cases hk : kv.1 = k
    · rw [if_pos hk] at h; cases h
    · rw [if_neg hk] at h
      rcases List.mem_cons.mp hp with rfl | hp2
      · exact hk
      · exact ih h p hp2

/-- A present key has a `some` lookup. -/
theorem alookup_isSome_of_key {α β : Type} [DecidableEq α] (l : List (α × β)) (k : α)
    (h : k ∈ l.map Prod.fst) : (alookup l k).isSome = true := by
  induction l with
  | nil => cases h
  | cons kv rest ih =>
    unfold alookup
    by_cases hk : kv.1 = k
    · rw [if_pos hk]; rfl
    · rw [if_neg hk]
      rcases List.mem_map.mp h with ⟨p, hp, hpk⟩
      rcases List.mem_cons.mp hp with rfl | hp2
      · exact absurd hpk hk
      · exact ih (List.mem_map.mpr ⟨p, hp2, hpk⟩)

/-- A `some` lookup means the key is present. -/
theorem key_mem_of_alookup_some {α β : Type} [DecidableEq α] (l : List (α × β)) (k : α)
    (v : β) (h : alookup l k = some v) : k ∈ l.map Prod.fst := by
  induction l with
  | nil => cases h
  | cons kv rest ih =>
    unfold alookup at h
    by_cases hk : kv.1 = k
    · exact List.mem_map.mpr ⟨kv, List.mem_cons_self _ _, hk⟩
    · rw [if_neg hk] at h
      rw [List.map_cons]
      exact List.mem_cons_of_mem _ (ih h)

/-- Updating a key leaves the key list unchanged. -/
theorem aupdate_keys {α β : Type} [DecidableEq α] (l : List (α × β)) (k : α) (f : β → β) :
    (aupdate l k f).map Prod.fst = l.map Prod.fst := by
  induction l with
  | nil => rfl
  | cons kv rest ih =>
    simp only [aupdate, List.map_cons] at ih ⊢
    by_cases hk : kv.1 = k
    · rw [if_pos hk]
      simp [ih]
    · rw [if_neg hk]
      simp [ih]

/-- One tally increment keeps every entry equal to the occurrence count of its
    key in the processed prefix, and keeps the key list covering it. -/
theorem aincr_spec {α : Type} [DecidableEq α] (acc : List (α × Nat)) (pr : List α) (a : α)
    (hcnt : ∀ p ∈ acc, p.2 = pr.count p.1)
    (hkeys : ∀ v ∈ pr, v ∈ acc.map Prod.fst)
    (hkeys2 : ∀ p ∈ acc, p.1 ∈ pr) :
    (∀ p ∈ aincr acc a, p.2 = (pr ++ [a]).count p.1) ∧
    (∀ v ∈ pr ++ [a], v ∈ (aincr acc a).map Prod.fst) ∧
    (∀ p ∈ aincr acc a, p.1 ∈ pr ++ [a]) := by
  unfold aincr
  cases h : alookup acc a with
  | some n =>
    refine ⟨?_, ?_, ?_⟩
    · intro p hp
      unfold aupdate at hp
      obtain ⟨p0, hp0, rfl⟩ := List.mem_map.mp hp
      have hc0 := hcnt p0 hp0
      by_cases hk : p0.1 = a
      · rw [if_pos hk]
        dsimp only
        rw [List.count_append, hk]
        simp [hc0, hk]
      · rw [if_neg hk]
        rw [List.count_append]
        have : List.count p0.1 [a] = 0 := by
          simp [List.count_singleton]
          exact fun h2 => hk h2.symm
        omega
    · intro v hv
      rw [aupdate_keys]
      rcases List.mem_append.mp hv with hv1 | hv1
      · exact hkeys v hv1
      · rw [List.mem_singleton] at hv1
        subst hv1
        exact key_mem_of_alookup_some acc v n h
    · intro p hp
      unfold aupdate at hp
      obtain ⟨p0, hp0, rfl⟩ := List.mem_map.mp hp
      by_cases hk : p0.1 = a
      · rw [if_pos hk]
        dsimp only
        exact List.mem_append.mpr (Or.inl (hkeys2 p0 hp0))
      · rw [if_neg hk]
        exact List.mem_append.mpr (Or.inl (hkeys2 p0 hp0))
  | none =>
    have hnotin : a ∉ pr := fun hin => by
      have hk := hkeys a hin
      have hs := alookup_isSome_of_key acc a hk
      rw [h] at hs
      cases hs
    refine ⟨?_, ?_, ?_⟩
    · intro p hp
      rcases List.mem_append.mp hp with hp1 | hp1
      · have hc0 := hcnt p hp1
        have hne : p.1 ≠ a := alookup_eq_none_forall acc a h p hp1
        rw [List.count_append]
        have : List.count p.1 [a] = 0 := by
          simp [List.count_singleton]
          exact fun h2 => hne h2.symm
        omega
      · rw [List.mem_singleton] at hp1
        subst hp1
        dsimp only
        rw [List.count_append]
        have h0 : pr.count a = 0 := List.count_eq_zero.mpr hnotin
        simp [h0]
    · intro v hv
      rw [List.map_append]
      rcases List.mem_append.mp hv with hv1 | hv1
      · exact List.mem_append.mpr (Or.inl (hkeys v hv1))
      · rw [List.mem_singleton] at hv1
        subst hv1
        exact List.mem_append.mpr (Or.inr (by simp))
    · intro p hp
      rcases List.mem_append.mp hp with hp1 | hp1
      · exact List.mem_append.mpr (Or.inl (hkeys2 p hp1))
      · rw [List.mem_singleton] at hp1
        subst hp1
        exact List.mem_append.mpr (Or.inr (by simp))

/-- Every tally entry records the occurrence count of its key; every tallied
    value has an entry; every entry's key was tallied. -/
theorem tally_spec {α : Type} [DecidableEq α] (l : List α) :
    (∀ p ∈ tally l, p.2 = l.count p.1) ∧
    (∀ v ∈ l, v ∈ (tally l).map Prod.fst) ∧
    (∀ p ∈ tally l, p.1 ∈ l) := by
  have aux : ∀ (l2 : List α) (acc : List (α × Nat)) (pr : List α),
      (∀ p ∈ acc, p.2 = pr.count p.1) →
      (∀ v ∈ pr, v ∈ acc.map Prod.fst) →
      (∀ p ∈ acc, p.1 ∈ pr) →
      (∀ p ∈ l2.foldl aincr acc, p.2 = (pr ++ l2).count p.1) ∧
      (∀ v ∈ pr ++ l2, v ∈ (l2.foldl aincr acc).map Prod.fst) ∧
      (∀ p ∈ l2.foldl aincr acc, p.1 ∈ pr ++ l2) := by
    intro l2
    induction l2 with
    | nil =>
      intro acc pr h1 h2 h3
      simp only [List.foldl_nil, List.append_nil]
      exact ⟨h1, h2, h3⟩
    | cons a rest ih =>
      intro acc pr h1 h2 h3
      have hstep := aincr_spec acc pr a h1 h2 h3
      have hrec := ih (aincr acc a) (pr ++ [a]) hstep.1 hstep.2.1 hstep.2.2
      simp only [List.append_assoc, List.singleton_append] at hrec
      simp only [List.foldl_cons]
      exact hrec
  have h := aux l [] [] (by intro p hp; cases hp) (by intro v hv; cases hv)
    (by intro p hp; cases hp)
  simp only [List.nil_append] at h
  exact h

/-- Tally-count comparison is total. -/
theorem countLe_total {α : Type} (x y : α × Nat) :
    countLe x y = true ∨ countLe y x = true := by
  rcases Nat.le_total x.2 y.2 with h | h
  · left; simpa [countLe] using h
  · right; simpa [countLe] using h

/-- Tally-count comparison is transitive. -/
theorem countLe_trans {α : Type} (x y z : α × Nat) (h1 : countLe x y = true)
    (h2 : countLe y z = true) : countLe x z = true := by
  simp only [countLe, decide_eq_true_eq] at h1 h2 ⊢
  omega

/-- With no tie at the top, `most_common` starts with the strict argmax: its
    head is a value whose count beats the count of every other tallied value. -/
theorem most_common_unique_top (l : List String) (hne : l ≠ [])
    (htie : tieDetected (most_common l) = false) :
    ∃ w cw rest2, most_common l = (w, cw) :: rest2 ∧
      l.count w = cw ∧
      ∀ v ∈ l, v ≠ w → l.count v < cw := by
  have hperm : (most_common l).Perm (tally l) := sortDesc_perm countLe (tally l)
  have hpair : (most_common l).Pairwise (fun x y => countLe y x = true) :=
    sortDesc_pairwise countLe countLe_total countLe_trans (tally l)
  have hspec := tally_spec l
  have hmcne : most_common l ≠ [] := by
    intro hmc
    cases hl2 : l with
    | nil => exact hne hl2
    | cons a as =>
      have hk := hspec.2.1 a (by rw [hl2]; exact List.mem_cons_self _ _)
      have : tally l = [] := by
        have hl3 := hperm.symm.length_eq
        rw [hmc] at hl3
        exact List.length_eq_zero.mp (by simpa using hl3)
      rw [this] at hk
      cases hk
  cases hmc : most_common l with
  | nil => exact absurd hmc hmcne
  | cons p rest2 =>
    obtain ⟨w, cw⟩ := p
    refine ⟨w, cw, rest2, rfl, ?_, ?_⟩
    · have hmem : (w, cw) ∈ tally l := by
        rw [← hperm.mem_iff, hmc]
        exact List.mem_cons_self _ _
      exact (hspec.1 _ hmem).symm
    · intro v hv hvw
      obtain ⟨p2, hp2, hp2k⟩ := List.mem_map.mp (hspec.2.1 v hv)
      have hp2mc : p2 ∈ most_common l := hperm.mem_iff.mpr hp2
      rw [hmc] at hp2mc
      have hp2cnt : p2.2 = l.count v := by
        rw [← hp2k]
        exact hspec.1 p2 hp2
      rcases List.mem_cons.mp hp2mc with rfl | hp2tail
      · exact absurd hp2k (fun h2 => hvw h2.symm)
      · rw [hmc] at hpair
        rw [List.pairwise_cons] at hpair
        have hle : p2.2 ≤ cw := by
          have := hpair.1 p2 hp2tail
          simpa [countLe] using this
        cases rest2 with
        | nil => cases hp2tail
        | cons b rest3 =>
          have hbne : ¬ b.2 = cw := by
            have : tieDetected ((w, cw) :: b :: rest3) = false := by
              rw [← hmc]; exact htie
            simpa [tieDetected] using this
          have hble : b.2 ≤ cw := by
            have := hpair.1 b (List.mem_cons_self _ _)
            simpa [countLe] using this
          have hp2b : p2.2 ≤ b.2 := by
            rcases List.mem_cons.mp hp2tail with rfl | hp2r3
            · exact le_refl _
            · have := (List.pairwise_cons.mp hpair.2).1 p2 hp2r3
              simpa [countLe] using this
          omega

/-- A left fold of `max` lands on its seed or on a list element. -/
theorem foldl_max_mem (l : List Nat) : ∀ a, l.foldl max a ∈ a :: l := by
  induction l with
  | nil => intro a; simp
  | cons b bs ih =>
    intro a
    have h := ih (max a b)
    rcases List.mem_cons.mp h with h1 | h1
    · rw [List.foldl_cons, h1]
      rcases max_choice a b with h2 | h2
      · rw [h2]
        exact List.mem_cons_self _ _
      · rw [h2]
        exact List.mem_cons_of_mem _ (List.mem_cons_self _ _)
    · rw [List.foldl_cons]
      exact List.mem_cons_of_mem _ (List.mem_cons_of_mem _ h1)

/-- A left fold of `max` bounds every list element. -/
theorem foldl_max_le (l : List Nat) : ∀ (a x : Nat), x ∈ l → x ≤ l.foldl max a := by
  induction l with
  | nil => intro a x hx; cases hx
  | cons b bs ih =>
    intro a x hx
    have hinit : ∀ c, c ≤ bs.foldl max c := by
      intro c
      clear hx ih
      induction bs generalizing c with
      | nil => exact le_refl c
      | cons d ds ih2 =>
        calc c ≤ max c d := Nat.le_max_left c d
        _ ≤ ds.foldl max (max c d) := ih2 (max c d)
    rcases List.mem_cons.mp hx with rfl | hx2
    · calc x ≤ max a x := Nat.le_max_right a x
      _ ≤ bs.foldl max (max a x) := hinit (max a x)
    · exact ih (max a b) x hx2

/-- With at least one vote in, the argmax option set is nonempty. -/
theorem voteWinners_ne_nil (vc : List (String × Nat))
    (h : ((vc.map (fun kv => kv.2)).sum ≠ 0)) : voteWinners vc ≠ [] := by
  have hx : ∃ x ∈ vc.map (fun kv => kv.2), x ≠ 0 := by
    by_contra hall
    push_neg at hall
    exact h (List.sum_eq_zero hall)
  obtain ⟨x, hxm, hx0⟩ := hx
  have heq : (vc.map (fun kv => kv.2)).foldl max 0 = maxVotes vc := by
    rw [List.foldl_map]
    rfl
  have hle : x ≤ maxVotes vc := by
    have h2 := foldl_max_le (vc.map (fun kv => kv.2)) 0 x hxm
    rw [heq] at h2
    exact h2
  have hmax0 : maxVotes vc ≠ 0 := by omega
  have hmem : maxVotes vc ∈ vc.map (fun kv => kv.2) := by
    have h3 := foldl_max_mem (vc.map (fun kv => kv.2)) 0
    rw [heq] at h3
    rcases List.mem_cons.mp h3 with h1 | h1
    · exact absurd h1 hmax0
    · exact h1
  obtain ⟨p, hp, hpv⟩ := List.mem_map.mp hmem
  intro hw
  have : p ∈ vc.filter (fun kv => kv.2 == maxVotes vc) := by
    rw [List.mem_filter]
    exact ⟨hp, by simp [hpv]⟩
  have : p.1 ∈ voteWinners vc := List.mem_map.mpr ⟨p, this, rfl⟩
  rw [hw] at this
  cases this

/-- `random.choice` picks from its argument list. -/
theorem pickFrom_mem (l : List String) (pick : Nat) (h : l ≠ []) : pickFrom l pick ∈ l := by
  unfold pickFrom
  have hlen : 0 < l.length := List.length_pos.mpr h
  have hmod : pick % l.length < l.length := Nat.mod_lt _ hlen
  rw [List.getD_eq_getElem l _ hmod]
  exact List.getElem_mem hmod

/-- A duplicate-free sublist at least as long as the duplicate-free ambient
    list covers it. -/
theorem covers_of_length_le (ready members : List String)
    (hsub : ∀ u ∈ ready, u ∈ members) (hndr : ready.Nodup) (hndm : members.Nodup)
    (hge : members.length ≤ ready.length) : ∀ m ∈ members, m ∈ ready := by
  intro m hm
  have hsubF : ready.toFinset ⊆ members.toFinset := by
    intro x hx
    rw [List.mem_toFinset] at hx ⊢
    exact hsub x hx
  have hcard : members.toFinset.card ≤ ready.toFinset.card := by
    rw [List.toFinset_card_of_nodup hndr, List.toFinset_card_of_nodup hndm]
    exact hge
  have heq := Finset.eq_of_subset_of_card_le hsubF hcard
  have hm2 : m ∈ ready.toFinset := by
    rw [heq, List.mem_toFinset]
    exact hm
  rw [List.mem_toFinset] at hm2
  exact hm2

/-- A tie at the top tallies at least two tied values. -/
theorem tiedValues_two (mc : List (String × Nat)) (htie : tieDetected mc = true) :
    2 ≤ (tiedValues mc).length := by
  cases mc with
  | nil => cases htie
  | cons a rest =>
    cases rest with
    | nil => cases htie
    | cons b rest2 =>
      have hb : b.2 = a.2 := by simpa [tieDetected] using htie
      unfold tiedValues
      rw [List.length_map]
      rw [List.filter_cons, List.filter_cons]
      have h1 : (a.2 == a.2) = true := by simp
      have h2 : (b.2 == a.2) = true := by simp [hb]
      rw [if_pos h1, if_pos h2]
      simp only [List.length_cons]
      omega

/-- C4 (confirmed): in `destination_decision`, a unique most-requested
    normalised destination wins immediately (no voting options are created); a
    tie creates one fresh `VoteOption` per tied value and moves the phase to
    `voting_in_progress`; once options exist and votes are in, resolution
    happens only when the distinct voters reach the member count (exact
    coverage when voters are members and ids are duplicate-free), and the
    winner always lies in the argmax option set — a persisting tie is decided
    by the choice oracle among the tied values only. -/
theorem destination_decision_rule (inp : DestInput)
    (hndm : inp.members.Nodup)
    (hsub : ∀ u ∈ allVoters ((alookup inp.phases "destination_decision").getD
      PhaseData.empty).options, u ∈ inp.members) :
    (inp.prefs.isEmpty = false → (destMentions inp.prefs).isEmpty = false →
      tieDetected (most_common (destMentions inp.prefs)) = false →
      ∃ w cw rest2 np,
        most_common (destMentions inp.prefs) = (w, cw) :: rest2 ∧
        (decide_destination inp).result = DestResult.resolved w np ∧
        (destMentions inp.prefs).count w = cw ∧
        (∀ v ∈ destMentions inp.prefs, v ≠ w → (destMentions inp.prefs).count v < cw) ∧
        (alookup (decide_destination inp).phasesAfter "destination_decision").map
          (fun p => p.options) =
          (alookup inp.phases "destination_decision").map (fun p => p.options)) ∧
    (inp.prefs.isEmpty = false → (destMentions inp.prefs).isEmpty = false →
      tieDetected (most_common (destMentions inp.prefs)) = true →
      ((alookup inp.phases "destination_decision").getD PhaseData.empty).options.isEmpty
        = true →
      (decide_destination inp).result =
        DestResult.votingSetup ((tiedValues (most_common (destMentions inp.prefs))).map
          (fun d => { value := d, label := strTitle d, votes := 0, voters := [] })) ∧
      2 ≤ (tiedValues (most_common (destMentions inp.prefs))).length ∧
      (alookup (decide_destination inp).phasesAfter "destination_decision").map
        (fun p => p.status) =
        (alookup inp.phases "destination_decision").map (fun _ => "voting_in_progress")) ∧
    (∀ pd, alookup inp.phases "destination_decision" = some pd →
      inp.prefs.isEmpty = false → (destMentions inp.prefs).isEmpty = false →
      tieDetected (most_common (destMentions inp.prefs)) = true →
      pd.options.isEmpty = false →
      ((voteCounts pd.options).map (fun kv => kv.2)).sum ≠ 0 →
      ((allVoters pd.options).length < inp.members.length →
        (decide_destination inp).result =
          DestResult.waitingForMembers (allVoters pd.options).length inp.members.length) ∧
      (inp.members.length ≤ (allVoters pd.options).length →
        (∀ m ∈ inp.members, m ∈ allVoters pd.options) ∧
        ∃ w np, (decide_destination inp).result = DestResult.resolved w np ∧
          w ∈ voteWinners (voteCounts pd.options) ∧
          ((voteWinners (voteCounts pd.options)).length = 1 →
            w = (voteWinners (voteCounts pd.options)).headD ""))) := by
  refine ⟨?_, ?_, ?_⟩
  · intro hp hm htie
    obtain ⟨w, cw, rest2, hmc, hcw, huniq⟩ := most_common_unique_top (destMentions inp.prefs)
      (by intro h2; rw [h2] at hm; exact absurd hm (by decide)) htie
    have hdd : decide_destination inp = resolveDestination inp.phases w := by
      unfold decide_destination
      rw [if_neg (by simp [hp])]
      dsimp only
      rw [if_neg (by simp [hm]), if_neg (by simp [htie])]
      rw [hmc]
      rfl
    obtain ⟨np, hnp⟩ := resolveDestination_result inp.phases w
    refine ⟨w, cw, rest2, np, hmc, ?_, hcw, huniq, ?_⟩
    · rw [hdd]
      exact hnp
    · rw [hdd]
      unfold resolveDestination
      dsimp only
      split
      · rw [alookup_aupdate, if_neg (by decide), alookup_aupdate, if_pos rfl]
        cases alookup inp.phases "destination_decision" <;> rfl
      · rw [alookup_aupdate, if_pos rfl]
        cases alookup inp.phases "destination_decision" <;> rfl
  · intro hp hm htie hopts
    have hdd : decide_destination inp =
        ⟨DestResult.votingSetup ((tiedValues (most_common (destMentions inp.prefs))).map
            (fun d => { value := d, label := strTitle d, votes := 0, voters := [] })),
          aupdate inp.phases "destination_decision"
            (fun pd => { pd with
              options := (tiedValues (most_common (destMentions inp.prefs))).map
                (fun d => { value := d, label := strTitle d, votes := 0, voters := [] }),
              status := "voting_in_progress" }),
          some "destination_decision"⟩ := by
      unfold decide_destination
      rw [if_neg (by simp [hp])]
      dsimp only
      rw [if_neg (by simp [hm]), if_pos htie, if_pos hopts]
    refine ⟨by rw [hdd], tiedValues_two _ htie, ?_⟩
    rw [hdd]
    dsimp only
    rw [alookup_aupdate, if_pos rfl]
    cases alookup inp.phases "destination_decision" <;> rfl
  · intro pd hpd hp hm htie hopts hsum
    have hgetD : (alookup inp.phases "destination_decision").getD PhaseData.empty = pd := by
      rw [hpd]
      rfl
    constructor
    · intro hlt
      have hdd : decide_destination inp =
          ⟨DestResult.waitingForMembers (allVoters pd.options).length inp.members.length,
            inp.phases, some "destination_decision"⟩ := by
        unfold decide_destination
        rw [if_neg (by simp [hp])]
        dsimp only
        rw [if_neg (by simp [hm]), if_pos htie, hgetD, if_neg (by simp [hopts]),
          if_neg hsum, if_pos hlt]
      rw [hdd]
    · intro hge
      rw [hgetD] at hsub
      have hcov : ∀ m ∈ inp.members, m ∈ allVoters pd.options :=
        covers_of_length_le (allVoters pd.options) inp.members hsub
          (List.nodup_dedup _) hndm hge
      have hwne : voteWinners (voteCounts pd.options) ≠ [] := voteWinners_ne_nil _ hsum
      have hdd : decide_destination inp = resolveDestination inp.phases
          (if (voteWinners (voteCounts pd.options)).length = 1 then
            (voteWinners (voteCounts pd.options)).headD ""
          else pickFrom (voteWinners (voteCounts pd.options)) inp.pick) := by
        unfold decide_destination
        rw [if_neg (by simp [hp])]
        dsimp only
        rw [if_neg (by simp [hm]), if_pos htie, hgetD, if_neg (by simp [hopts]),
          if_neg hsum, if_neg (by omega)]
      obtain ⟨np, hnp⟩ := resolveDestination_result inp.phases
        (if (voteWinners (voteCounts pd.options)).length = 1 then
          (voteWinners (voteCounts pd.options)).headD ""
        else pickFrom (voteWinners (voteCounts pd.options)) inp.pick)
      refine ⟨hcov,
        (if (voteWinners (voteCounts pd.options)).length = 1 then
          (voteWinners (voteCounts pd.options)).headD ""
        else pickFrom (voteWinners (voteCounts pd.options)) inp.pick), np, ?_, ?_, ?_⟩
      · rw [hdd]
        exact hnp
      · by_cases h1 : (voteWinners (voteCounts pd.options)).length = 1
        · rw [if_pos h1]
          cases hwc : voteWinners (voteCounts pd.options) with
          | nil => exact absurd hwc hwne
          | cons x xs => exact List.mem_cons_self _ _
        · rw [if_neg h1]
          exact pickFrom_mem _ inp.pick hwne
      · intro h1
        rw [if_pos h1]

/-- Witness for `destination_decision_rule`: all three members voted on the
    tied destinations, and the resolved winner lies in the argmax set. -/
theorem destination_decision_rule_witness :
    destInpW.members.Nodup ∧
    (∃ w np, (decide_destination destInpW).result = DestResult.resolved w np ∧
      w ∈ voteWinners (voteCounts pdW.options)) := by
  refine ⟨by decide, ?_⟩
  have h := (destination_decision_rule destInpW (by decide) (by decide)).2.2 pdW (by decide)
    (by decide) (by decide) (by decide) (by decide) (by decide)
  obtain ⟨w, np, h1, h2, h3⟩ := (h.2 (by decide)).2
  exact ⟨w, np, h1, h2⟩

/-- C7 counterexample: on a trip whose stored run status is `running`,
    `trigger_all_in` answers with the constant marker `already_started` — it
    does not return the existing status value. -/
theorem trigger_status_counterexample :
    runningTrip.orchestrator_status = some "running" ∧
    trigger_all_in runningTrip [] =
      ⟨TriggerResult.alreadyStarted, 0, false⟩ ∧
    responseStatus (trigger_all_in runningTrip []).result = "already_started" ∧
    responseStatus (trigger_all_in runningTrip []).result ≠ "running" := by decide

/-- C7 (amended): when the single-flight guard fires (`orchestrator_status`
    in running/paused/completed, or trip status planning/consensus),
    `trigger_all_in` is an idempotent no-op: it answers with the constant
    already-started marker, writes nothing and starts no background run. -/
theorem trigger_idempotent_noop (trip : TripDoc) (all_prefs : List Pref)
    (h : alreadyStartedGuard trip = true) :
    trigger_all_in trip all_prefs = ⟨TriggerResult.alreadyStarted, 0, false⟩ ∧
    responseStatus (trigger_all_in trip all_prefs).result = "already_started" := by
  have hdd : trigger_all_in trip all_prefs = ⟨TriggerResult.alreadyStarted, 0, false⟩ := by
    unfold trigger_all_in
    rw [if_pos h]
  exact ⟨hdd, by rw [hdd]; rfl⟩

/-- Witness for `trigger_idempotent_noop` on a paused trip. -/
theorem trigger_idempotent_noop_witness :
    alreadyStartedGuard ({ orchestrator_status := some "paused" } : TripDoc) = true ∧
    trigger_all_in { orchestrator_status := some "paused" } [] =
      ⟨TriggerResult.alreadyStarted, 0, false⟩ := by
  refine ⟨by decide, ?_⟩
  exact (trigger_idempotent_noop { orchestrator_status := some "paused" } [] (by decide)).1

/-- C8 (confirmed): with more than one pooled availability range, zero
    pairwise overlaps yield the explicit incompatible-dates outcome — no date
    selected, no phase state written, no run started; exactly one overlap is
    auto-selected with no date voting options; two or more overlaps start the
    consensus flow whose `date_selection` phase carries exactly the overlap
    set as voting options (pending behind a destination conflict, active
    otherwise), with a background run started. -/
theorem date_overlap_rule (trip : TripDoc) (all_prefs : List Pref)
    (hguard : alreadyStartedGuard trip = false)
    (hmem : trip.members_with_preferences.isEmpty = false)
    (hranges : 1 < (allInDates all_prefs).length) :
    (overlapping_date_ranges (allInDates all_prefs) = [] →
      trigger_all_in trip all_prefs = ⟨TriggerResult.datesIncompatible, 1, false⟩) ∧
    (∀ r, overlapping_date_ranges (allInDates all_prefs) = [r] →
      selectedDatesOf (trigger_all_in trip all_prefs).result = some r ∧
      dateVotingOptions (trigger_all_in trip all_prefs).result = [] ∧
      (trigger_all_in trip all_prefs).orchestratorStarted = true) ∧
    (2 ≤ (overlapping_date_ranges (allInDates all_prefs)).length →
      dateVotingOptions (trigger_all_in trip all_prefs).result =
        overlapping_date_ranges (allInDates all_prefs) ∧
      dateStatusOf (trigger_all_in trip all_prefs).result =
        some (if (allInDestination all_prefs).has_conflict then "pending" else "active") ∧
      (trigger_all_in trip all_prefs).orchestratorStarted = true) := by
  refine ⟨?_, ?_, ?_⟩
  · intro h0
    have hdo : dateOutcome (allInDates all_prefs) = DateOutcome.noCompatible := by
      unfold dateOutcome
      rw [if_pos hranges]
      simp [h0]
    unfold trigger_all_in
    rw [if_neg (by simp [hguard]), if_neg (by simp [hmem])]
    dsimp only
    rw [hdo]
  · intro r h1
    have hdo : dateOutcome (allInDates all_prefs) = DateOutcome.single r := by
      unfold dateOutcome
      rw [if_pos hranges]
      simp [h1]
    have htr : trigger_all_in trip all_prefs =
        (if (allInDestination all_prefs).has_conflict || false then
          ⟨TriggerResult.consensusStarted
            ⟨if (allInDestination all_prefs).has_conflict then some "destination_decision"
              else if false then some "date_selection" else none,
              [("destination_decision",
                 { status := if (allInDestination all_prefs).has_conflict then "active"
                     else "completed",
                   started_at := (allInDestination all_prefs).has_conflict,
                   users_ready := [],
                   destination_options := if (allInDestination all_prefs).has_conflict then
                     (allInDestination all_prefs).tied else [] }),
               ("date_selection",
                 { status := if (allInDestination all_prefs).has_conflict then "pending"
                     else if false then "active" else "completed",
                   started_at := !(allInDestination all_prefs).has_conflict && false,
                   date_options := if false then [] else [] }),
               ("activity_voting", { status := "pending" }),
               ("itinerary_approval", { status := "pending" })]⟩
            (some r), 2, true⟩
        else
          ⟨TriggerResult.planningStarted
            (if !truthyStr (allInDestination all_prefs).destination &&
                !(allInDestination all_prefs).has_conflict then trip.destination
              else (allInDestination all_prefs).destination)
            (some r), 2, true⟩) := by
      unfold trigger_all_in
      rw [if_neg (by simp [hguard]), if_neg (by simp [hmem])]
      dsimp only
      rw [hdo]
    by_cases hc : (allInDestination all_prefs).has_conflict
    · rw [htr, if_pos (by simp [hc])]
      refine ⟨rfl, ?_, rfl⟩
      simp [dateVotingOptions, alookup]
    · rw [htr, if_neg (by simp [hc])]
      exact ⟨rfl, rfl, rfl⟩
  · intro h2
    have hne0 : (overlapping_date_ranges (allInDates all_prefs)).length = 0 → False := by
      omega
    have hne1 : (overlapping_date_ranges (allInDates all_prefs)).length = 1 → False := by
      omega
    have hdo : dateOutcome (allInDates all_prefs) =
        DateOutcome.conflict (overlapping_date_ranges (allInDates all_prefs)) := by
      unfold dateOutcome
      rw [if_pos hranges]
      rw [if_neg hne0, if_neg hne1]
    have htr : trigger_all_in trip all_prefs =
        ⟨TriggerResult.consensusStarted
          ⟨if (allInDestination all_prefs).has_conflict then some "destination_decision"
            else if true then some "date_selection" else none,
            [("destination_decision",
               { status := if (allInDestination all_prefs).has_conflict then "active"
                   else "completed",
                 started_at := (allInDestination all_prefs).has_conflict,
                 users_ready := [],
                 destination_options := if (allInDestination all_prefs).has_conflict then
                   (allInDestination all_prefs).tied else [] }),
             ("date_selection",
               { status := if (allInDestination all_prefs).has_conflict then "pending"
                   else if true then "active" else "completed",
                 started_at := !(allInDestination all_prefs).has_conflict && true,
                 date_options := if true then overlapping_date_ranges (allInDates all_prefs)
                   else [] }),
             ("activity_voting", { status := "pending" }),
             ("itinerary_approval", { status := "pending" })]⟩
          (if (allInDates all_prefs).isEmpty = true then none
            else some ((sortDesc countLe (tally (allInDates all_prefs))).headD ((0, 0), 0)).1),
          2, true⟩ := by
      unfold trigger_all_in
      rw [if_neg (by simp [hguard]), if_neg (by simp [hmem])]
      dsimp only
      rw [hdo]
      dsimp only
      rw [if_pos (by simp)]
    rw [htr]
    refine ⟨?_, ?_, rfl⟩
    · simp [dateVotingOptions, alookup]
    · simp [dateStatusOf, alookup]

/-- Witness for `date_overlap_rule`: two members with disjoint availability
    windows get the incompatible-dates outcome with no run started. -/
theorem date_overlap_rule_witness :
    overlapping_date_ranges (allInDates
      [{ destination := some "paris", available_dates := [(1, 5)] },
       { destination := some "paris", available_dates := [(10, 15)] }]) = [] ∧
    trigger_all_in
      { members := ["m1", "m2"], members_with_preferences := ["m1", "m2"] }
      [{ destination := some "paris", available_dates := [(1, 5)] },
       { destination := some "paris", available_dates := [(10, 15)] }] =
      ⟨TriggerResult.datesIncompatible, 1, false⟩ := by
  refine ⟨by decide, ?_⟩
  exact (date_overlap_rule
    { members := ["m1", "m2"], members_with_preferences := ["m1", "m2"] }
    [{ destination := some "paris", available_dates := [(1, 5)] },
     { destination := some "paris", available_dates := [(10, 15)] }]
    (by decide) (by decide) (by decide)).1 (by decide)

end TravelPlanner
